import Mathlib

/-!
Verification of the CoDified memory engine.

This file gives a shallow embedding, in Lean 4, of the parts of the
CoDified TypeScript source that the specification talks about:
the circuit breaker (`src/core/security/CircuitBreaker.ts`), the
transaction manager (`src/core/transactions/TransactionManager.ts`),
the graph query engine (`GraphQueryEngine.ts`), the memory manager
(`src/core/memory/MemoryManager.ts`), the node validator
(`src/core/validation/nodeValidator.ts`) and the embedder
(`Embedder.ts`), together with theorems settling the behavioural
claims made about them.

Machine integers are modelled as `Nat`/`Int`, JavaScript exceptions as
`Option`/`Except` results, and the SQLite database as an explicit
in-memory list of rows.  Asynchronous actions are modelled by passing
their outcome as an explicit parameter.
-/

namespace CoDified

/-! ## Circuit breaker (src/core/security/CircuitBreaker.ts) -/

/-- The three states of `CircuitState` in CircuitBreaker.ts. -/
inductive CircuitState
  | CLOSED
  | OPEN
  | HALF_OPEN
  deriving DecidableEq, Repr

/-- `CircuitBreakerConfig` from CircuitBreaker.ts: `failureThreshold`
and `resetTimeoutMs`.  Times are modelled as integers (milliseconds). -/
structure CircuitBreakerConfig where
  failureThreshold : Nat
  resetTimeoutMs : Int
  deriving DecidableEq, Repr

/-- The mutable fields of the `CircuitBreaker` class (the log-only
`name` field is omitted): `state`, `failureCount`, `lastFailureTime`
and the per-instance `config`. -/
structure CircuitBreaker where
  state : CircuitState
  failureCount : Nat
  lastFailureTime : Int
  config : CircuitBreakerConfig
  deriving DecidableEq, Repr

/-- `updateState`: when the breaker is OPEN and more than
`resetTimeoutMs` have passed since `lastFailureTime`, move to
HALF_OPEN (lazily, on the next call). -/
def CircuitBreaker.updateState (cb : CircuitBreaker) (now : Int) : CircuitBreaker :=
  if cb.state = CircuitState.OPEN ∧ now - cb.lastFailureTime > cb.config.resetTimeoutMs then
    { cb with state := CircuitState.HALF_OPEN }
  else
    cb

/-- `onSuccess`: reset to CLOSED with `failureCount = 0`. -/
def CircuitBreaker.onSuccess (cb : CircuitBreaker) : CircuitBreaker :=
  { cb with state := CircuitState.CLOSED, failureCount := 0 }

/-- `onFailure`: increment `failureCount`, stamp `lastFailureTime`, and
open the circuit when the count reaches `failureThreshold`. -/
def CircuitBreaker.onFailure (cb : CircuitBreaker) (now : Int) : CircuitBreaker :=
  if cb.failureCount + 1 ≥ cb.config.failureThreshold then
    { cb with
        failureCount := cb.failureCount + 1
        lastFailureTime := now
        state := CircuitState.OPEN }
  else
    { cb with failureCount := cb.failureCount + 1, lastFailureTime := now }

/-- Observable outcome of one `execute` call: either the call was
rejected because the circuit was OPEN (the wrapped action was *not*
invoked), or the action ran and succeeded, or the action ran and its
error was rethrown. -/
inductive ExecOutcome
  | rejected
  | completed
  | errored
  deriving DecidableEq, Repr

/-- `execute`, instrumented: the wrapped asynchronous action is
abstracted by the boolean `actionSucceeds`; the second component of
the result is the outcome, the third counts how many times the wrapped
action was invoked (0 or 1). -/
def CircuitBreaker.execute (cb : CircuitBreaker) (now : Int) (actionSucceeds : Bool) :
    CircuitBreaker × ExecOutcome × Nat :=
  if (cb.updateState now).state = CircuitState.OPEN then
    (cb.updateState now, ExecOutcome.rejected, 0)
  else if actionSucceeds then
    ((cb.updateState now).onSuccess, ExecOutcome.completed, 1)
  else
    ((cb.updateState now).onFailure now, ExecOutcome.errored, 1)

/-- Breakers reachable from the freshly constructed breaker
(`state = CLOSED`, `failureCount = 0`) by any sequence of `execute`
calls. -/
inductive CircuitBreaker.Reachable (cfg : CircuitBreakerConfig) : CircuitBreaker → Prop
  | init : CircuitBreaker.Reachable cfg ⟨CircuitState.CLOSED, 0, 0, cfg⟩
  | step (cb : CircuitBreaker) (now : Int) (ok : Bool)
      (h : CircuitBreaker.Reachable cfg cb) :
      CircuitBreaker.Reachable cfg (cb.execute now ok).1

theorem CircuitBreaker.updateState_config (cb : CircuitBreaker) (now : Int) :
    (cb.updateState now).config = cb.config := by
  unfold CircuitBreaker.updateState
  split <;> rfl

theorem CircuitBreaker.updateState_failureCount (cb : CircuitBreaker) (now : Int) :
    (cb.updateState now).failureCount = cb.failureCount := by
  unfold CircuitBreaker.updateState
  split <;> rfl

theorem CircuitBreaker.updateState_state (cb : CircuitBreaker) (now : Int) :
    (cb.updateState now).state = cb.state ∨
      ((cb.updateState now).state = CircuitState.HALF_OPEN ∧
        cb.state = CircuitState.OPEN) := by
  unfold CircuitBreaker.updateState
  split
  · rename_i hcond
    exact Or.inr ⟨rfl, hcond.1⟩
  · exact Or.inl rfl

/-- In every reachable breaker the configuration is the constructor's
and a non-CLOSED state certifies `failureCount ≥ failureThreshold`. -/
theorem CircuitBreaker.reachable_invariant (cfg : CircuitBreakerConfig)
    (cb : CircuitBreaker) (h : CircuitBreaker.Reachable cfg cb) :
    cb.config = cfg ∧ (cb.state ≠ CircuitState.CLOSED →
      cb.failureCount ≥ cfg.failureThreshold) := by
  induction h with
  | init => exact ⟨rfl, fun hne => absurd rfl hne⟩
  | step cb now ok _ ih =>
    obtain ⟨hcfg, hinv⟩ := ih
    have hupc : (cb.updateState now).config = cfg :=
      (cb.updateState_config now).trans hcfg
    have hupcnt : (cb.updateState now).failureCount = cb.failureCount :=
      cb.updateState_failureCount now
    have hupi : (cb.updateState now).state ≠ CircuitState.CLOSED →
        (cb.updateState now).failureCount ≥ cfg.failureThreshold := by
      intro hne
      rw [hupcnt]
      rcases cb.updateState_state now with hsame | ⟨_, hopen⟩
      · exact hinv (by rw [← hsame]; exact hne)
      · exact hinv (by rw [hopen]; intro hc; cases hc)
    unfold CircuitBreaker.execute
    split
    · exact ⟨hupc, hupi⟩
    · split
      · exact ⟨hupc, fun hne => absurd rfl hne⟩
      · unfold CircuitBreaker.onFailure
        split
        · rename_i hge
          constructor
          · simpa using hupc
          · intro _
            simpa [hupc] using hge
        · rename_i hlt
          constructor
          · simpa using hupc
          · intro hne
            have hst : (cb.updateState now).state ≠ CircuitState.CLOSED := by
              simpa using hne
            have := hupi hst
            have : (cb.updateState now).failureCount + 1 ≥ cfg.failureThreshold :=
              Nat.le_succ_of_le this
            simpa [hupc] using le_trans this (le_refl _)

theorem CircuitBreaker.updateState_of_ne_open (cb : CircuitBreaker) (now : Int)
    (h : cb.state ≠ CircuitState.OPEN) : cb.updateState now = cb := by
  unfold CircuitBreaker.updateState
  rw [if_neg]
  intro hc
  exact h hc.1

/-- C4: the circuit breaker realizes the specified three-state machine.
In CLOSED, calls pass through and each failure increments
`failureCount`, reaching `failureThreshold` transitions to OPEN
(otherwise the breaker stays CLOSED).  In OPEN, while the reset window
has not elapsed, `execute` rejects without invoking the wrapped action
and leaves the breaker untouched; once more than `resetTimeoutMs` have
elapsed since `lastFailureTime`, the call attempt transitions to
HALF_OPEN and passes through.  In HALF_OPEN, a success transitions to
CLOSED with `failureCount = 0`, and (for any reachable breaker) a
failure transitions back to OPEN with `lastFailureTime` refreshed. -/
theorem C4_circuit_breaker_state_machine (cb : CircuitBreaker) (now : Int) (ok : Bool) :
    (cb.state = CircuitState.CLOSED → (cb.execute now ok).2.2 = 1) ∧
    (cb.state = CircuitState.CLOSED → ok = false →
      (cb.execute now ok).1.failureCount = cb.failureCount + 1 ∧
      (cb.failureCount + 1 ≥ cb.config.failureThreshold →
        (cb.execute now ok).1.state = CircuitState.OPEN) ∧
      (cb.failureCount + 1 < cb.config.failureThreshold →
        (cb.execute now ok).1.state = CircuitState.CLOSED)) ∧
    (cb.state = CircuitState.OPEN → now - cb.lastFailureTime ≤ cb.config.resetTimeoutMs →
      (cb.execute now ok).2.1 = ExecOutcome.rejected ∧
      (cb.execute now ok).2.2 = 0 ∧
      (cb.execute now ok).1 = cb) ∧
    (cb.state = CircuitState.OPEN → now - cb.lastFailureTime > cb.config.resetTimeoutMs →
      (cb.updateState now).state = CircuitState.HALF_OPEN ∧
      (cb.execute now ok).2.2 = 1) ∧
    ((cb.updateState now).state = CircuitState.HALF_OPEN → ok = true →
      (cb.execute now ok).1.state = CircuitState.CLOSED ∧
      (cb.execute now ok).1.failureCount = 0) ∧
    (∀ cfg : CircuitBreakerConfig, CircuitBreaker.Reachable cfg cb →
      (cb.updateState now).state = CircuitState.HALF_OPEN → ok = false →
      (cb.execute now ok).1.state = CircuitState.OPEN ∧
      (cb.execute now ok).1.lastFailureTime = now) := by
  refine ⟨?_, ?_, ?_, ?_, ?_, ?_⟩
  · intro hclosed
    have hne : cb.state ≠ CircuitState.OPEN := by rw [hclosed]; intro hc; cases hc
    simp only [CircuitBreaker.execute, cb.updateState_of_ne_open now hne, hclosed]
    cases ok <;> simp
  · intro hclosed hok
    have hne : cb.state ≠ CircuitState.OPEN := by rw [hclosed]; intro hc; cases hc
    simp only [CircuitBreaker.execute, cb.updateState_of_ne_open now hne, hclosed, hok,
      CircuitBreaker.onFailure,
      if_neg (show ¬(CircuitState.CLOSED = CircuitState.OPEN) by decide),
      if_neg (show ¬(false = true) by decide)]
    refine ⟨?_, ?_, ?_⟩
    · split <;> rfl
    · intro hge
      rw [if_pos hge]
    · intro hlt
      rw [if_neg (Nat.not_le_of_lt hlt)]
  · intro hopen hle
    have hsame : cb.updateState now = cb := by
      unfold CircuitBreaker.updateState
      rw [if_neg]
      intro hc
      exact absurd hc.2 (not_lt_of_le hle)
    simp only [CircuitBreaker.execute, hsame, hopen]
    simp
  · intro hopen hgt
    have hhalf : (cb.updateState now).state = CircuitState.HALF_OPEN := by
      unfold CircuitBreaker.updateState
      rw [if_pos ⟨hopen, hgt⟩]
    refine ⟨hhalf, ?_⟩
    simp only [CircuitBreaker.execute, hhalf]
    cases ok <;> simp
  · intro hhalf hok
    simp only [CircuitBreaker.execute, hhalf, hok]
    simp [CircuitBreaker.onSuccess]
  · intro cfg hreach hhalf hok
    obtain ⟨hcfg, hinv⟩ := CircuitBreaker.reachable_invariant cfg cb hreach
    have hnotclosed : cb.state ≠ CircuitState.CLOSED := by
      intro hclosed
      have hne : cb.state ≠ CircuitState.OPEN := by rw [hclosed]; intro hc; cases hc
      rw [cb.updateState_of_ne_open now hne, hclosed] at hhalf
      cases hhalf
    have hcount : cb.failureCount ≥ cfg.failureThreshold := hinv hnotclosed
    have hge : (cb.updateState now).failureCount + 1 ≥
        (cb.updateState now).config.failureThreshold := by
      rw [cb.updateState_failureCount now, cb.updateState_config now, hcfg]
      exact Nat.le_succ_of_le hcount
    simp only [CircuitBreaker.execute, hhalf, hok]
    simp only [CircuitBreaker.onFailure, if_pos hge]
    simp

/-- Concrete instantiation of `C4_circuit_breaker_state_machine`: a
breaker with threshold 1 and reset window 10 that has failed once at
time 0 is OPEN; calling it at time 11 moves it through HALF_OPEN, and
the failing probe reopens it with `lastFailureTime = 11`. -/
theorem C4_circuit_breaker_state_machine_witness :
    ((((⟨CircuitState.CLOSED, 0, 0, ⟨1, 10⟩⟩ : CircuitBreaker).execute 0 false).1.execute
        11 false).1.state = CircuitState.OPEN ∧
     (((⟨CircuitState.CLOSED, 0, 0, ⟨1, 10⟩⟩ : CircuitBreaker).execute 0 false).1.execute
        11 false).1.lastFailureTime = 11) ∧
    ((((⟨CircuitState.CLOSED, 0, 0, ⟨1, 10⟩⟩ : CircuitBreaker).execute 0 false).1.execute
        5 true).2.1 = ExecOutcome.rejected ∧
     (((⟨CircuitState.CLOSED, 0, 0, ⟨1, 10⟩⟩ : CircuitBreaker).execute 0 false).1.execute
        5 true).2.2 = 0 ∧
     (((⟨CircuitState.CLOSED, 0, 0, ⟨1, 10⟩⟩ : CircuitBreaker).execute 0 false).1.execute
        5 true).1 = ((⟨CircuitState.CLOSED, 0, 0, ⟨1, 10⟩⟩ : CircuitBreaker).execute 0 false).1) :=
  ⟨(C4_circuit_breaker_state_machine
        ((⟨CircuitState.CLOSED, 0, 0, ⟨1, 10⟩⟩ : CircuitBreaker).execute 0 false).1
        11 false).2.2.2.2.2 ⟨1, 10⟩
      (CircuitBreaker.Reachable.step _ 0 false CircuitBreaker.Reachable.init)
      (by decide) rfl,
   (C4_circuit_breaker_state_machine
        ((⟨CircuitState.CLOSED, 0, 0, ⟨1, 10⟩⟩ : CircuitBreaker).execute 0 false).1
        5 true).2.2.1 (by decide) (by decide)⟩

/-! ## Relational data model (drizzle schema, `schema.ts`) -/

/-- A row of the `nodes` table: `id` (autoincrement pk), `name`,
`type` (default `'concept'`), `content`, `user_id`, `embedding_id`,
`metadata`, `status` (default `'PENDING'`), `updated_at`.  The
`created_at` column is never read by the code under verification and
is omitted. -/
structure Node where
  id : Nat
  name : String
  type : Option String
  content : Option String
  userId : String
  embeddingId : Option String
  metadata : Option String
  status : String
  updatedAt : Int
  deriving DecidableEq, Repr

/-- A row of the `edges` table: `id`, `source_id`, `target_id`,
`type` (default `'RELATED_TO'`), `weight` (default 1.0, modelled as a
rational), `user_id`. -/
structure Edge where
  id : Nat
  sourceId : Nat
  targetId : Nat
  type : String
  weight : Rat
  userId : String
  deriving DecidableEq, Repr

/-- The SQLite database: the two graph tables plus the autoincrement
counters. -/
structure Db where
  nodes : List Node
  edges : List Edge
  nextNodeId : Nat
  nextEdgeId : Nat
  deriving DecidableEq, Repr

/-! ## Node validator (src/core/validation/nodeValidator.ts) -/

/-- One character of the whitelist `[a-zA-Z0-9_-]`. -/
def isWhitelistChar (c : Char) : Bool :=
  (('a' ≤ c && c ≤ 'z') || ('A' ≤ c && c ≤ 'Z') || ('0' ≤ c && c ≤ '9')
    || c == '_' || c == '-')

/-- `validateNodeName` as a boolean test (`true` = passes, `false` =
the TS function throws `ValidationError`): non-empty, none of the five
banned Unicode characters, none of `< > " ' \`, full match of
`^[a-zA-Z0-9_-]{1,200}$`, and length at most
`CONFIG.VALIDATION.MAX_NODE_NAME_LENGTH = 200`. -/
def validNodeName (s : String) : Bool :=
  !s.isEmpty
    && !(s.data.any fun c =>
          c == Char.ofNat 0x0 || c == Char.ofNat 0x202e || c == Char.ofNat 0x200f
            || c == Char.ofNat 0x200b || c == Char.ofNat 0xffff)
    && !(s.data.any fun c =>
          c == '<' || c == '>' || c == '"' || c == '\'' || c == '\\')
    && (s.data.all isWhitelistChar && 1 ≤ s.length && s.length ≤ 200)
    && s.length ≤ 200

/-! ## String primitives

JavaScript's `trim` and SQLite's ASCII case folding, modelled directly
over the character list. -/

/-- JS `String.prototype.trim`: strip whitespace from both ends. -/
def jsTrim (s : String) : String :=
  String.mk ((s.data.dropWhile Char.isWhitespace).reverse.dropWhile
    Char.isWhitespace).reverse

/-- ASCII lower-casing of one character. -/
def lowerChar (c : Char) : Char :=
  if 'A' ≤ c ∧ c ≤ 'Z' then Char.ofNat (c.toNat + 32) else c

/-- ASCII lower-casing of a string (SQLite `LIKE` folds only ASCII). -/
def asciiLower (s : String) : String :=
  String.mk (s.data.map lowerChar)

/-! ## SQL string search (`instr`) -/

/-- Does `needle` occur at the head of `hay`? -/
def leadMatch : List Char → List Char → Bool
  | [], _ => true
  | _ :: _, [] => false
  | a :: as, b :: bs => a == b && leadMatch as bs

/-- `instr(hay, needle) ≠ 0`: does `needle` occur anywhere in `hay`?
Models SQLite's `instr`-based substring tests in the recursive CTEs. -/
def occursIn (needle : List Char) : List Char → Bool
  | [] => leadMatch needle []
  | b :: bs => leadMatch needle (b :: bs) || occursIn needle bs

/-! ## Graph query engine (GraphQueryEngine.ts) -/

/-- `',' || CAST(id AS TEXT) || ','`: the comma-framed id used by the
cycle-detection check. -/
def framedId (id : Nat) : String :=
  "," ++ toString id ++ ","

/-- One row of the recursive CTE `traversal_path(id, name, type,
content, depth, visited_ids)`. -/
structure TRow where
  id : Nat
  name : String
  type : Option String
  content : Option String
  depth : Nat
  visitedIds : String
  deriving DecidableEq, Repr

/-- The row shape produced by `SELECT DISTINCT id, name, type,
content, depth` (the `visited_ids` column is projected away before
`DISTINCT`). -/
structure RawRow where
  id : Nat
  name : String
  type : Option String
  content : Option String
  depth : Nat
  deriving DecidableEq, Repr

def TRow.toRawRow (r : TRow) : RawRow :=
  ⟨r.id, r.name, r.type, r.content, r.depth⟩

/-- A hydrated node as returned by `hydrateNodes`. -/
structure GraphNode where
  id : Nat
  name : String
  type : String
  content : Option String
  depth : Nat
  deriving DecidableEq, Repr

/-- An edge row of the result: `src.name as source, tgt.name as
target, e.type, e.weight`. -/
structure GraphEdge where
  source : String
  target : String
  type : String
  weight : Rat
  deriving DecidableEq, Repr

/-- A subgraph result `{ nodes, edges }`. -/
structure SubgraphResult where
  nodes : List GraphNode
  edges : List GraphEdge
  deriving DecidableEq, Repr

/-- `hydrateNodes` on a single row: `type || 'concept'` (JS falsiness:
`null` and `''` both fall back) and `content || null` (`''` becomes
`null`). -/
def hydrateRow (r : RawRow) : GraphNode :=
  { id := r.id
    name := r.name
    type := match r.type with
      | none => "concept"
      | some t => if t = "" then "concept" else t
    content := match r.content with
      | none => none
      | some c => if c = "" then none else some c
    depth := r.depth }

def hydrateNodes (rows : List RawRow) : List GraphNode :=
  rows.map hydrateRow

/-- The anchor member of the subgraph CTE: nodes with
`name = startName AND user_id = userId`, at depth 0, with
`visited_ids = ',' || id || ','`. -/
def anchorRows (db : Db) (startName userId : String) : List TRow :=
  (db.nodes.filter fun n => n.name == startName && n.userId == userId).map fun n =>
    ⟨n.id, n.name, n.type, n.content, 0, framedId n.id⟩

/-- The recursive member of the subgraph CTE, applied to one row `tp`:
join `edges e` on `e.source_id = tp.id` with `e.user_id = userId`,
join `nodes target` on `target.id = e.target_id`, require
`tp.depth < maxDepth` and that the comma-framed target id does not
occur in `tp.visited_ids`. -/
def expandRow (db : Db) (userId : String) (maxDepth : Nat) (tp : TRow) : List TRow :=
  if tp.depth < maxDepth then
    db.edges.flatMap fun e =>
      if e.userId == userId && e.sourceId == tp.id then
        (db.nodes.filter fun tgt => tgt.id == e.targetId).filterMap fun tgt =>
          if occursIn (framedId tgt.id).data tp.visitedIds.data then
            none
          else
            some ⟨tgt.id, tgt.name, tgt.type, tgt.content, tp.depth + 1,
              tp.visitedIds ++ toString tgt.id ++ ","⟩
      else []
  else []

/-- The recursive member of the bidirectional `deep_traversal` CTE of
`findDeepContext`: join `edges e` on
`(e.target_id = target.id OR e.source_id = target.id)` and on
`(e.source_id = dt.id OR e.target_id = dt.id)`, with the same tenant,
depth and cycle conditions as `expandRow`. -/
def expandRowBidi (db : Db) (userId : String) (maxDepth : Nat) (tp : TRow) : List TRow :=
  if tp.depth < maxDepth then
    db.edges.flatMap fun e =>
      if e.userId == userId && (e.sourceId == tp.id || e.targetId == tp.id) then
        (db.nodes.filter fun tgt =>
            tgt.id == e.targetId || tgt.id == e.sourceId).filterMap fun tgt =>
          if occursIn (framedId tgt.id).data tp.visitedIds.data then
            none
          else
            some ⟨tgt.id, tgt.name, tgt.type, tgt.content, tp.depth + 1,
              tp.visitedIds ++ toString tgt.id ++ ","⟩
      else []
  else []

/-- The least-fixpoint iteration of a recursive CTE `UNION ALL`,
level by level: `step` produces the next level from the previous one.
Each level of the graph CTEs increments `depth` and every recursive
member requires `depth < maxDepth`, so `maxDepth` rounds reach the
fixpoint. -/
def cteLevels {α : Type} (step : α → List α) : Nat → List α → List α
  | 0, _ => []
  | fuel + 1, frontier =>
      frontier.flatMap step ++ cteLevels step fuel (frontier.flatMap step)

/-- All rows of the subgraph CTE: the anchor plus `maxDepth` recursive
rounds. -/
def subgraphRows (db : Db) (startName userId : String) (maxDepth : Nat) : List TRow :=
  anchorRows db startName userId ++
    cteLevels (expandRow db userId maxDepth) maxDepth (anchorRows db startName userId)

/-- All rows of the `deep_traversal` CTE of `findDeepContext`. -/
def deepRows (db : Db) (startName userId : String) (maxDepth : Nat) : List TRow :=
  anchorRows db startName userId ++
    cteLevels (expandRowBidi db userId maxDepth) maxDepth (anchorRows db startName userId)

/-- The joined edge rows `(e, src, tgt)` of the edge query used by
`findSubgraph` and `findDeepContext`: `e.user_id = userId` and *both*
endpoints in `foundIds`. -/
def edgesBothIn (db : Db) (userId : String) (foundIds : List Nat) :
    List (Edge × Node × Node) :=
  db.edges.flatMap fun e =>
    if e.userId == userId && foundIds.contains e.sourceId
        && foundIds.contains e.targetId then
      db.nodes.flatMap fun src =>
        if src.id == e.sourceId then
          (db.nodes.filter fun tgt => tgt.id == e.targetId).map fun tgt => (e, src, tgt)
        else []
    else []

/-- The joined edge rows of the edge query used by `readGraph` and
`searchNodes`: `e.user_id = userId` and *either* endpoint in
`foundIds`. -/
def edgesTouching (db : Db) (userId : String) (foundIds : List Nat) :
    List (Edge × Node × Node) :=
  db.edges.flatMap fun e =>
    if e.userId == userId && (foundIds.contains e.sourceId
        || foundIds.contains e.targetId) then
      db.nodes.flatMap fun src =>
        if src.id == e.sourceId then
          (db.nodes.filter fun tgt => tgt.id == e.targetId).map fun tgt => (e, src, tgt)
        else []
    else []

/-- `src.name as source, tgt.name as target, e.type, e.weight`. -/
def edgeRowToGraphEdge (t : Edge × Node × Node) : GraphEdge :=
  ⟨t.2.1.name, t.2.2.name, t.1.type, t.1.weight⟩

/-- The hydrated node list of `findSubgraph`: the SQL `SELECT
DISTINCT` is modelled by `List.dedup` on the projected rows. -/
def subgraphNodes (db : Db) (startNodeName userId : String) (maxDepth : Nat) :
    List GraphNode :=
  hydrateNodes ((subgraphRows db startNodeName userId maxDepth).map TRow.toRawRow).dedup

/-- `findSubgraph(startNodeName, userId, maxDepth)`.  `none` models a
thrown `ValidationError` from `validateNodeName`. -/
def findSubgraph (db : Db) (startNodeName userId : String) (maxDepth : Nat) :
    Option SubgraphResult :=
  if !validNodeName startNodeName then
    none
  else if jsTrim userId = "" then
    some ⟨[], []⟩
  else if (subgraphNodes db startNodeName userId maxDepth).isEmpty then
    some ⟨[], []⟩
  else
    some ⟨subgraphNodes db startNodeName userId maxDepth,
      (edgesBothIn db userId
        ((subgraphNodes db startNodeName userId maxDepth).map GraphNode.id)).map
        edgeRowToGraphEdge⟩

/-- The hydrated node list of `findDeepContext`. -/
def deepNodes (db : Db) (startNodeName userId : String) (maxDepth : Nat) :
    List GraphNode :=
  hydrateNodes ((deepRows db startNodeName userId maxDepth).map TRow.toRawRow).dedup

/-- `findDeepContext(startNodeName, userId, maxDepth)`: the
bidirectional variant. -/
def findDeepContext (db : Db) (startNodeName userId : String) (maxDepth : Nat) :
    Option SubgraphResult :=
  if !validNodeName startNodeName then
    none
  else if jsTrim userId = "" then
    some ⟨[], []⟩
  else if (deepNodes db startNodeName userId maxDepth).isEmpty then
    some ⟨[], []⟩
  else
    some ⟨deepNodes db startNodeName userId maxDepth,
      (edgesBothIn db userId
        ((deepNodes db startNodeName userId maxDepth).map GraphNode.id)).map
        edgeRowToGraphEdge⟩

/-- The paged node slice of `readGraph`: `WHERE user_id = ?` with
`LIMIT ? OFFSET ?`. -/
def readGraphNodes (db : Db) (userId : String) (limit offset : Nat) : List GraphNode :=
  hydrateNodes ((((db.nodes.filter fun n => n.userId == userId).drop offset).take
    limit).map fun n => ⟨n.id, n.name, n.type, n.content, 0⟩)

/-- `readGraph(userId, limit, offset)`: the paged node slice of one
tenant plus the tenant's edges touching that page. -/
def readGraph (db : Db) (userId : String) (limit offset : Nat) : SubgraphResult :=
  if jsTrim userId = "" then
    ⟨[], []⟩
  else if (readGraphNodes db userId limit offset).isEmpty then
    ⟨[], []⟩
  else
    ⟨readGraphNodes db userId limit offset,
      (edgesTouching db userId
        ((readGraphNodes db userId limit offset).map GraphNode.id)).map
        edgeRowToGraphEdge⟩

/-- SQLite `LIKE '%query%'` (ASCII-case-insensitive substring). -/
def likeContains (query s : String) : Bool :=
  occursIn (asciiLower query).data (asciiLower s).data

/-- The node scan of `searchNodes`: keyword match over `name`,
`content` and `type`, capped at 50 rows (`content LIKE`/`type LIKE` on
a NULL column is not a match). -/
def searchNodesScan (db : Db) (query userId : String) : List GraphNode :=
  hydrateNodes (((db.nodes.filter fun n => n.userId == userId &&
      (likeContains query n.name
        || (match n.content with | some c => likeContains query c | none => false)
        || (match n.type with | some t => likeContains query t | none => false))).take
    50).map fun n => ⟨n.id, n.name, n.type, n.content, 0⟩)

/-- `searchNodes(query, userId)`. -/
def searchNodes (db : Db) (query userId : String) : SubgraphResult :=
  if jsTrim userId = "" || jsTrim query = "" then
    ⟨[], []⟩
  else if (searchNodesScan db query userId).isEmpty then
    ⟨[], []⟩
  else
    ⟨searchNodesScan db query userId,
      (edgesTouching db userId ((searchNodesScan db query userId).map GraphNode.id)).map
        edgeRowToGraphEdge⟩

/-- One row of the `path_finding` CTE of `findPath`. -/
structure PRow where
  id : Nat
  name : String
  pathNames : String
  depth : Nat
  found : Bool
  deriving DecidableEq, Repr

/-- Anchor member of `path_finding`. -/
def pathAnchorRows (db : Db) (startNode endNode userId : String) : List PRow :=
  (db.nodes.filter fun n => n.name == startNode && n.userId == userId).map fun n =>
    ⟨n.id, n.name, n.name, 0, n.name == endNode⟩

/-- Recursive member of `path_finding`: outgoing edges of the same
tenant, `depth < maxDepth`, `found = 0`, and the name-substring cycle
check `instr(pf.path_names, tgt.name) = 0`. -/
def expandPathRow (db : Db) (endNode userId : String) (maxDepth : Nat) (pf : PRow) :
    List PRow :=
  if pf.depth < maxDepth && pf.found == false then
    db.edges.flatMap fun e =>
      if e.userId == userId && e.sourceId == pf.id then
        (db.nodes.filter fun tgt => tgt.id == e.targetId).filterMap fun tgt =>
          if occursIn tgt.name.data pf.pathNames.data then
            none
          else
            some ⟨tgt.id, tgt.name, pf.pathNames ++ " -> " ++ tgt.name, pf.depth + 1,
              tgt.name == endNode⟩
      else []
  else []

/-- All rows of the `path_finding` CTE, in depth order. -/
def pathRows (db : Db) (startNode endNode userId : String) (maxDepth : Nat) : List PRow :=
  pathAnchorRows db startNode endNode userId ++
    cteLevels (expandPathRow db endNode userId maxDepth) maxDepth
      (pathAnchorRows db startNode endNode userId)

/-- `findPath(startNode, endNode, userId, maxDepth)`.  The outer
`Option` models a thrown `ValidationError`, the inner one the `null`
no-path result.  `ORDER BY depth ASC LIMIT 1` picks the first found
row; `pathRows` is already in depth order. -/
def findPath (db : Db) (startNode endNode userId : String) (maxDepth : Nat) :
    Option (Option (String × Nat)) :=
  if !validNodeName startNode then
    none
  else if !validNodeName endNode then
    none
  else if jsTrim userId = "" then
    some none
  else if startNode == endNode then
    some (some (startNode, 0))
  else
    some (((pathRows db startNode endNode userId maxDepth).find? fun r => r.found).map
      fun r => (r.pathNames, r.depth))

/-! ## Invariants of the CTE iteration -/

theorem cteLevels_invariant {α : Type} (step : α → List α) (P : α → Prop)
    (hstep : ∀ a b, P a → b ∈ step a → P b) :
    ∀ (fuel : Nat) (frontier : List α), (∀ a ∈ frontier, P a) →
      ∀ b ∈ cteLevels step fuel frontier, P b := by
  intro fuel
  induction fuel with
  | zero =>
    intro frontier _ b hb
    simp only [cteLevels] at hb
    cases hb
  | succ n ih =>
    intro frontier hfr b hb
    simp only [cteLevels] at hb
    have hnext : ∀ a ∈ frontier.flatMap step, P a := by
      intro a ha
      rcases List.mem_flatMap.mp ha with ⟨c, hc, hac⟩
      exact hstep c a (hfr c hc) hac
    rcases List.mem_append.mp hb with h1 | h2
    · exact hnext b h1
    · exact ih _ hnext b h2

/-- Decomposition of membership in the recursive CTE member: a
produced row certifies the depth guard, a tenant edge from `tp`, a
target node, and a failed (i.e., admitting) cycle check. -/
theorem mem_expandRow {db : Db} {userId : String} {maxDepth : Nat} {tp r : TRow}
    (h : r ∈ expandRow db userId maxDepth tp) :
    tp.depth < maxDepth ∧ ∃ e ∈ db.edges, e.userId = userId ∧ e.sourceId = tp.id ∧
      ∃ tgt ∈ db.nodes, tgt.id = e.targetId ∧
        occursIn (framedId tgt.id).data tp.visitedIds.data = false ∧
        r = ⟨tgt.id, tgt.name, tgt.type, tgt.content, tp.depth + 1,
          tp.visitedIds ++ toString tgt.id ++ ","⟩ := by
  unfold expandRow at h
  split at h
  · rename_i hlt
    rcases List.mem_flatMap.mp h with ⟨e, he, hr⟩
    refine ⟨hlt, e, he, ?_⟩
    split at hr
    · rename_i hcond
      simp only [Bool.and_eq_true] at hcond
      rcases hcond with ⟨hu, hs⟩
      rcases List.mem_filterMap.mp hr with ⟨tgt, htgtf, hsome⟩
      rcases List.mem_filter.mp htgtf with ⟨htgtmem, htgtid⟩
      refine ⟨by simpa using hu, by simpa using hs, tgt, htgtmem, by simpa using htgtid, ?_⟩
      by_cases hocc : occursIn (framedId tgt.id).data tp.visitedIds.data = true
      · rw [if_pos hocc] at hsome
        cases hsome
      · rw [if_neg hocc] at hsome
        exact ⟨Bool.not_eq_true _ ▸ (by simpa using hocc), (Option.some.injEq _ _ ▸ hsome).symm⟩
    · cases hr
  · cases h

/-- Converse: an edge of the tenant leaving `tp`, a matching target
node and a passing cycle check produce the expected row. -/
theorem expandRow_mem {db : Db} {userId : String} {maxDepth : Nat} {tp : TRow}
    {e : Edge} {tgt : Node} (hlt : tp.depth < maxDepth) (he : e ∈ db.edges)
    (hu : e.userId = userId) (hs : e.sourceId = tp.id) (htgt : tgt ∈ db.nodes)
    (hid : tgt.id = e.targetId)
    (hocc : occursIn (framedId tgt.id).data tp.visitedIds.data = false) :
    (⟨tgt.id, tgt.name, tgt.type, tgt.content, tp.depth + 1,
      tp.visitedIds ++ toString tgt.id ++ ","⟩ : TRow) ∈
      expandRow db userId maxDepth tp := by
  unfold expandRow
  rw [if_pos hlt]
  refine List.mem_flatMap.mpr ⟨e, he, ?_⟩
  rw [if_pos (by simp [hu, hs])]
  refine List.mem_filterMap.mpr ⟨tgt, List.mem_filter.mpr ⟨htgt, by simp [hid]⟩, ?_⟩
  rw [if_neg (by simp [hocc])]

/-- Reachability from node id `a` to node id `c` in exactly `k` steps
along outgoing edges of tenant `userId`. -/
inductive ReachSteps (db : Db) (userId : String) : Nat → Nat → Nat → Prop
  | zero (a : Nat) : ReachSteps db userId 0 a a
  | step {k a b c : Nat} (e : Edge) (he : e ∈ db.edges) (hu : e.userId = userId)
      (hs : e.sourceId = b) (ht : e.targetId = c) (h : ReachSteps db userId k a b) :
      ReachSteps db userId (k + 1) a c

/-- The combined invariant of the subgraph CTE rows: bounded depth,
reachability from an anchor node, and provenance of the row's fields
from a database node with the row's id. -/
def SubRowOk (db : Db) (startName userId : String) (maxDepth : Nat) (r : TRow) : Prop :=
  r.depth ≤ maxDepth ∧
    (∃ a ∈ db.nodes, a.name = startName ∧ a.userId = userId ∧
      ReachSteps db userId r.depth a.id r.id) ∧
    (∃ n ∈ db.nodes, n.id = r.id ∧ n.name = r.name ∧ n.type = r.type ∧
      n.content = r.content)

theorem anchorRows_ok (db : Db) (startName userId : String) (maxDepth : Nat) :
    ∀ r ∈ anchorRows db startName userId, SubRowOk db startName userId maxDepth r := by
  intro r hr
  unfold anchorRows at hr
  rcases List.mem_map.mp hr with ⟨n, hnf, hrn⟩
  rcases List.mem_filter.mp hnf with ⟨hnmem, hcond⟩
  simp only [Bool.and_eq_true] at hcond
  rcases hcond with ⟨hname, huser⟩
  subst hrn
  exact ⟨Nat.zero_le _,
    ⟨n, hnmem, by simpa using hname, by simpa using huser, ReachSteps.zero n.id⟩,
    ⟨n, hnmem, rfl, rfl, rfl, rfl⟩⟩

theorem expandRow_preserves_ok (db : Db) (startName userId : String) (maxDepth : Nat) :
    ∀ tp r : TRow, SubRowOk db startName userId maxDepth tp →
      r ∈ expandRow db userId maxDepth tp → SubRowOk db startName userId maxDepth r := by
  intro tp r hok hr
  rcases mem_expandRow hr with ⟨hlt, e, he, hu, hs, tgt, htgt, hid, _, hreq⟩
  rcases hok with ⟨_, ⟨a, ha, haname, hauser, hreach⟩, _⟩
  subst hreq
  refine ⟨Nat.succ_le_of_lt hlt, ⟨a, ha, haname, hauser, ?_⟩, ⟨tgt, htgt, rfl, rfl, rfl, rfl⟩⟩
  exact ReachSteps.step e he hu hs hid.symm hreach

theorem subgraphRows_ok (db : Db) (startName userId : String) (maxDepth : Nat) :
    ∀ r ∈ subgraphRows db startName userId maxDepth,
      SubRowOk db startName userId maxDepth r := by
  intro r hr
  unfold subgraphRows at hr
  rcases List.mem_append.mp hr with h1 | h2
  · exact anchorRows_ok db startName userId maxDepth r h1
  · exact cteLevels_invariant (expandRow db userId maxDepth) _
      (expandRow_preserves_ok db startName userId maxDepth) maxDepth
      (anchorRows db startName userId)
      (anchorRows_ok db startName userId maxDepth) r h2

/-- Node ids are a primary key: two rows of `nodes` with the same id
are the same row. -/
def NodeIdsUnique (db : Db) : Prop :=
  ∀ n ∈ db.nodes, ∀ m ∈ db.nodes, n.id = m.id → n = m

theorem subgraphNodes_mem (db : Db) (startName userId : String) (maxDepth : Nat)
    (r : GraphNode) (hr : r ∈ subgraphNodes db startName userId maxDepth) :
    ∃ row ∈ subgraphRows db startName userId maxDepth,
      r.id = row.id ∧ r.depth = row.depth := by
  unfold subgraphNodes hydrateNodes at hr
  rcases List.mem_map.mp hr with ⟨raw, hraw, hre⟩
  have hraw' : raw ∈ (subgraphRows db startName userId maxDepth).map TRow.toRawRow :=
    List.mem_dedup.mp hraw
  rcases List.mem_map.mp hraw' with ⟨row, hrow, hrawe⟩
  refine ⟨row, hrow, ?_, ?_⟩
  · rw [← hre, ← hrawe]
    rfl
  · rw [← hre, ← hrawe]
    rfl

/-- C6 (amended): every node returned by `findSubgraph(start, tenant,
d)` is reachable from a node named `start` of that tenant in at most
`d` outgoing-edge steps along edges of that tenant; and, when node ids
are unique, no two entries of the returned node list agree on both id
and depth.  (The same id may appear at several depths — the `SELECT
DISTINCT` covers the whole row including `depth`; see the
counterexample.) -/
theorem C6_subgraph_reachable_and_distinct_rows (db : Db) (startName userId : String)
    (maxDepth : Nat) (res : SubgraphResult)
    (hres : findSubgraph db startName userId maxDepth = some res) :
    (∀ r ∈ res.nodes, ∃ k, k ≤ maxDepth ∧ ∃ a ∈ db.nodes, a.name = startName ∧
      a.userId = userId ∧ ReachSteps db userId k a.id r.id) ∧
    (NodeIdsUnique db → (res.nodes.map fun r => (r.id, r.depth)).Nodup) := by
  unfold findSubgraph at hres
  split at hres
  · cases hres
  · split at hres
    · injection hres with h
      subst h
      exact ⟨fun r hr => absurd hr (by simp), fun _ => by simp⟩
    · split at hres
      · injection hres with h
        subst h
        exact ⟨fun r hr => absurd hr (by simp), fun _ => by simp⟩
      · injection hres with h
        subst h
        constructor
        · intro r hr
          rcases subgraphNodes_mem db startName userId maxDepth r hr with
            ⟨row, hrow, hid, hdepth⟩
          rcases subgraphRows_ok db startName userId maxDepth row hrow with
            ⟨hdep, ⟨a, ha, han, hau, hreach⟩, _⟩
          exact ⟨row.depth, hdep, a, ha, han, hau, by rw [hid]; exact hreach⟩
        · intro hpk
          have hmm : (subgraphNodes db startName userId maxDepth).map
              (fun r => (r.id, r.depth)) =
              (((subgraphRows db startName userId maxDepth).map TRow.toRawRow).dedup).map
                (fun raw => (raw.id, raw.depth)) := by
            unfold subgraphNodes hydrateNodes
            rw [List.map_map]
            rfl
          simp only [hmm]
          refine List.Nodup.map_on ?_ (List.nodup_dedup _)
          intro raw1 h1 raw2 h2 heq
          rcases List.mem_map.mp (List.mem_dedup.mp h1) with ⟨row1, hrow1, he1⟩
          rcases List.mem_map.mp (List.mem_dedup.mp h2) with ⟨row2, hrow2, he2⟩
          rcases (subgraphRows_ok db startName userId maxDepth row1 hrow1).2.2 with
            ⟨n1, hn1, hnid1, hnn1, hnt1, hnc1⟩
          rcases (subgraphRows_ok db startName userId maxDepth row2 hrow2).2.2 with
            ⟨n2, hn2, hnid2, hnn2, hnt2, hnc2⟩
          subst he1
          subst he2
          have hid : row1.id = row2.id := congrArg Prod.fst heq
          have hdep : row1.depth = row2.depth := congrArg Prod.snd heq
          have hn12 : n1 = n2 := hpk n1 hn1 n2 hn2 (by rw [hnid1, hnid2, hid])
          show TRow.toRawRow row1 = TRow.toRawRow row2
          unfold TRow.toRawRow
          rw [hid, hdep, ← hnn1, ← hnt1, ← hnc1, hn12, hnn2, hnt2, hnc2]

/-- The diamond database refuting the literal reading of C6: tenant
`u1` has nodes `s`(1), `a`(2), `c`(3) and edges `s→a`, `a→c`, `s→c`,
so `c` is reached both at depth 1 and at depth 2. -/
def C6exDb : Db :=
  { nodes := [
      ⟨1, "s", none, none, "u1", none, none, "PENDING", 0⟩,
      ⟨2, "a", none, none, "u1", none, none, "PENDING", 0⟩,
      ⟨3, "c", none, none, "u1", none, none, "PENDING", 0⟩],
    edges := [
      ⟨1, 1, 2, "related_to", 1, "u1"⟩,
      ⟨2, 2, 3, "related_to", 1, "u1"⟩,
      ⟨3, 1, 3, "related_to", 1, "u1"⟩],
    nextNodeId := 4
    nextEdgeId := 4 }

/-- The value `findSubgraph C6exDb "s" "u1" 2` evaluates to. -/
def C6exRes : SubgraphResult :=
  { nodes := [
      ⟨1, "s", "concept", none, 0⟩,
      ⟨2, "a", "concept", none, 1⟩,
      ⟨3, "c", "concept", none, 1⟩,
      ⟨3, "c", "concept", none, 2⟩],
    edges := [
      ⟨"s", "a", "related_to", 1⟩,
      ⟨"a", "c", "related_to", 1⟩,
      ⟨"s", "c", "related_to", 1⟩] }

/-- C6, counterexample to the claim as stated: on `C6exDb`, the node
list returned by `subgraph("s", "u1", 2)` carries node id 3 twice
(once at depth 1 and once at depth 2), so "no node id appears twice in
the returned node list" is false. -/
theorem C6_counterexample_duplicate_node_id :
    findSubgraph C6exDb "s" "u1" 2 = some C6exRes ∧
    C6exRes.nodes.map GraphNode.id = [1, 2, 3, 3] ∧
    ¬ ([1, 2, 3, 3] : List Nat).Nodup :=
  ⟨rfl, rfl, by decide⟩

/-- Witness for `C6_subgraph_reachable_and_distinct_rows` at the
concrete diamond database: its hypotheses hold and the returned
`(id, depth)` pairs are pairwise distinct. -/
theorem C6_subgraph_reachable_and_distinct_rows_witness :
    (C6exRes.nodes.map fun r => (r.id, r.depth)).Nodup :=
  (C6_subgraph_reachable_and_distinct_rows C6exDb "s" "u1" 2 C6exRes rfl).2
    (by unfold NodeIdsUnique; decide)

/-! ## C7: comma-framed cycle detection -/

/-- The comma-delimited visited-id string of a path of ids, with
leading and trailing delimiters: `,id1,id2,...,idk,`. -/
def visitedString (ids : List Nat) : String :=
  ids.foldl (fun acc i => acc ++ toString i ++ ",") ","

theorem visitedString_concat (ids : List Nat) (i : Nat) :
    visitedString (ids ++ [i]) = visitedString ids ++ toString i ++ "," := by
  unfold visitedString
  rw [List.foldl_append]
  rfl

/-- A CTE row whose `visited_ids` is a comma-delimited id path ending
in the row's own id. -/
def RowVisitedShape (r : TRow) : Prop :=
  ∃ ids : List Nat, ids ≠ [] ∧ r.visitedIds = visitedString ids ∧
    ids.getLast? = some r.id

theorem anchorRows_shape (db : Db) (startName userId : String) :
    ∀ r ∈ anchorRows db startName userId, RowVisitedShape r := by
  intro r hr
  unfold anchorRows at hr
  rcases List.mem_map.mp hr with ⟨n, _, hrn⟩
  subst hrn
  exact ⟨[n.id], by simp, rfl, rfl⟩

theorem expandRow_preserves_shape (db : Db) (userId : String) (maxDepth : Nat) :
    ∀ tp r : TRow, RowVisitedShape tp → r ∈ expandRow db userId maxDepth tp →
      RowVisitedShape r := by
  intro tp r hshape hr
  rcases mem_expandRow hr with ⟨_, e, _, _, _, tgt, _, _, _, hreq⟩
  rcases hshape with ⟨ids, hne, hvs, _⟩
  subst hreq
  refine ⟨ids ++ [tgt.id], by simp, ?_, ?_⟩
  · show tp.visitedIds ++ toString tgt.id ++ "," = visitedString (ids ++ [tgt.id])
    rw [visitedString_concat, hvs]
  · simp

/-- The two-node cycle database for the id-11-versus-id-1 regression:
nodes `n1`(1) and `n11`(11) of tenant `u`, with edges `1→11` and
`11→1`. -/
def C7cycleDb : Db :=
  { nodes := [
      ⟨1, "n1", none, none, "u", none, none, "PENDING", 0⟩,
      ⟨11, "n11", none, none, "u", none, none, "PENDING", 0⟩],
    edges := [
      ⟨1, 1, 11, "related_to", 1, "u"⟩,
      ⟨2, 11, 1, "related_to", 1, "u"⟩],
    nextNodeId := 12
    nextEdgeId := 3 }

/-- C7: the subgraph CTE keeps the visited path as a comma-delimited
id string with leading and trailing delimiters (every produced row's
`visited_ids` is `visitedString` of a non-empty id path ending in the
row's id); the recursive step admits a candidate target iff its
comma-framed id is absent from the path; and, concretely, from the
anchor with visited path `,1,`, the candidate of id 11 is admitted
while the subsequent step rejects the already-visited id 1 — so the
two-node cycle `1→11→1` yields exactly the nodes 1 and 11. -/
theorem C7_cycle_detection_framed_ids :
    (∀ (db : Db) (startName userId : String) (maxDepth : Nat),
      ∀ r ∈ subgraphRows db startName userId maxDepth, RowVisitedShape r) ∧
    (∀ (db : Db) (userId : String) (maxDepth : Nat) (tp : TRow) (tgt : Node),
      tgt ∈ db.nodes → tp.depth < maxDepth →
      (∃ e ∈ db.edges, e.userId = userId ∧ e.sourceId = tp.id ∧ e.targetId = tgt.id) →
      ((∃ r ∈ expandRow db userId maxDepth tp, r.id = tgt.id) ↔
        occursIn (framedId tgt.id).data tp.visitedIds.data = false)) ∧
    ((expandRow C7cycleDb "u" 2 ⟨1, "n1", none, none, 0, ",1,"⟩).map TRow.id = [11]) ∧
    (expandRow C7cycleDb "u" 2 ⟨11, "n11", none, none, 1, ",1,11,"⟩ = []) ∧
    ((findSubgraph C7cycleDb "n1" "u" 2).map (fun res => res.nodes.map GraphNode.id) =
      some [1, 11]) := by
  refine ⟨?_, ?_, rfl, rfl, rfl⟩
  · intro db startName userId maxDepth r hr
    unfold subgraphRows at hr
    rcases List.mem_append.mp hr with h1 | h2
    · exact anchorRows_shape db startName userId r h1
    · exact cteLevels_invariant (expandRow db userId maxDepth) _
        (expandRow_preserves_shape db userId maxDepth) maxDepth
        (anchorRows db startName userId)
        (anchorRows_shape db startName userId) r h2
  · intro db userId maxDepth tp tgt htgt hlt ⟨e, he, hu, hs, ht⟩
    constructor
    · rintro ⟨r, hr, hrid⟩
      rcases mem_expandRow hr with ⟨_, e', _, _, _, tgt', _, _, hocc, hreq⟩
      subst hreq
      exact hrid ▸ hocc
    · intro hocc
      exact ⟨_, expandRow_mem hlt he hu hs htgt ht.symm hocc, rfl⟩

/-- Witness for `C7_cycle_detection_framed_ids`: the row the CTE
produces for node 11 at depth 1 has the comma-delimited visited path
`,1,11,`. -/
theorem C7_cycle_detection_framed_ids_witness :
    RowVisitedShape ⟨11, "n11", none, none, 1, ",1,11,"⟩ :=
  C7_cycle_detection_framed_ids.1 C7cycleDb "n1" "u" 2
    ⟨11, "n11", none, none, 1, ",1,11,"⟩ (by decide)

/-! ## C8: tenant isolation -/

/-- Every edge's endpoints carry the edge's tenant (the data-model
invariant of the spec, maintained by all writers: `createEdge` links
only ids obtained from `getOrCreateNode` with the same `userId`). -/
def TenantCoherent (db : Db) : Prop :=
  ∀ e ∈ db.edges, ∀ n ∈ db.nodes, (n.id = e.sourceId ∨ n.id = e.targetId) →
    n.userId = e.userId

theorem mem_expandRowBidi {db : Db} {userId : String} {maxDepth : Nat} {tp r : TRow}
    (h : r ∈ expandRowBidi db userId maxDepth tp) :
    ∃ e ∈ db.edges, e.userId = userId ∧
      ∃ tgt ∈ db.nodes, (tgt.id = e.targetId ∨ tgt.id = e.sourceId) ∧ r.id = tgt.id := by
  unfold expandRowBidi at h
  split at h
  · rcases List.mem_flatMap.mp h with ⟨e, he, hr⟩
    split at hr
    · rename_i hcond
      simp only [Bool.and_eq_true] at hcond
      rcases List.mem_filterMap.mp hr with ⟨tgt, htgtf, hsome⟩
      rcases List.mem_filter.mp htgtf with ⟨htgtmem, htgtid⟩
      refine ⟨e, he, by simpa using hcond.1, tgt, htgtmem, by simpa using htgtid, ?_⟩
      by_cases hocc : occursIn (framedId tgt.id).data tp.visitedIds.data = true
      · rw [if_pos hocc] at hsome
        cases hsome
      · rw [if_neg hocc] at hsome
        have hreq := (Option.some.injEq _ _).mp hsome
        rw [← hreq]
    · cases hr
  · cases h

theorem mem_expandPathRow {db : Db} {endNode userId : String} {maxDepth : Nat}
    {pf r : PRow} (h : r ∈ expandPathRow db endNode userId maxDepth pf) :
    ∃ e ∈ db.edges, e.userId = userId ∧
      ∃ tgt ∈ db.nodes, tgt.id = e.targetId ∧ r.id = tgt.id := by
  unfold expandPathRow at h
  split at h
  · rcases List.mem_flatMap.mp h with ⟨e, he, hr⟩
    split at hr
    · rename_i hcond
      simp only [Bool.and_eq_true] at hcond
      rcases List.mem_filterMap.mp hr with ⟨tgt, htgtf, hsome⟩
      rcases List.mem_filter.mp htgtf with ⟨htgtmem, htgtid⟩
      refine ⟨e, he, by simpa using hcond.1, tgt, htgtmem, by simpa using htgtid, ?_⟩
      by_cases hocc : occursIn tgt.name.data pf.pathNames.data = true
      · rw [if_pos hocc] at hsome
        cases hsome
      · rw [if_neg hocc] at hsome
        have hreq := (Option.some.injEq _ _).mp hsome
        rw [← hreq]
    · cases hr
  · cases h

/-- A row of the tenant-scoped CTEs names a node of the query tenant,
provided the database is tenant-coherent. -/
def RowTenant (db : Db) (userId : String) (r : TRow) : Prop :=
  ∃ n ∈ db.nodes, n.id = r.id ∧ n.userId = userId

theorem anchorRows_tenant (db : Db) (startName userId : String) :
    ∀ r ∈ anchorRows db startName userId, RowTenant db userId r := by
  intro r hr
  unfold anchorRows at hr
  rcases List.mem_map.mp hr with ⟨n, hnf, hrn⟩
  rcases List.mem_filter.mp hnf with ⟨hnmem, hcond⟩
  simp only [Bool.and_eq_true] at hcond
  subst hrn
  exact ⟨n, hnmem, rfl, by simpa using hcond.2⟩

theorem subgraphRows_tenant (db : Db) (startName userId : String) (maxDepth : Nat)
    (hco : TenantCoherent db) :
    ∀ r ∈ subgraphRows db startName userId maxDepth, RowTenant db userId r := by
  intro r hr
  rcases List.mem_append.mp hr with h1 | h2
  · exact anchorRows_tenant db startName userId r h1
  · refine cteLevels_invariant (expandRow db userId maxDepth) _ ?_ maxDepth
      (anchorRows db startName userId) (anchorRows_tenant db startName userId) r h2
    intro tp r' _ hr'
    rcases mem_expandRow hr' with ⟨_, e, he, hu, _, tgt, htgt, hid, _, hreq⟩
    subst hreq
    exact ⟨tgt, htgt, rfl, (hco e he tgt htgt (Or.inr hid)).trans hu⟩

theorem deepRows_tenant (db : Db) (startName userId : String) (maxDepth : Nat)
    (hco : TenantCoherent db) :
    ∀ r ∈ deepRows db startName userId maxDepth, RowTenant db userId r := by
  intro r hr
  rcases List.mem_append.mp hr with h1 | h2
  · exact anchorRows_tenant db startName userId r h1
  · refine cteLevels_invariant (expandRowBidi db userId maxDepth) _ ?_ maxDepth
      (anchorRows db startName userId) (anchorRows_tenant db startName userId) r h2
    intro tp r' _ hr'
    rcases mem_expandRowBidi hr' with ⟨e, he, hu, tgt, htgt, hid, hrid⟩
    exact ⟨tgt, htgt, hrid.symm, (hco e he tgt htgt hid.symm).trans hu⟩

theorem pathRows_tenant (db : Db) (startNode endNode userId : String) (maxDepth : Nat)
    (hco : TenantCoherent db) :
    ∀ r ∈ pathRows db startNode endNode userId maxDepth,
      ∃ n ∈ db.nodes, n.id = r.id ∧ n.userId = userId := by
  intro r hr
  unfold pathRows at hr
  have hanchor : ∀ r' ∈ pathAnchorRows db startNode endNode userId,
      ∃ n ∈ db.nodes, n.id = r'.id ∧ n.userId = userId := by
    intro r' hr'
    unfold pathAnchorRows at hr'
    rcases List.mem_map.mp hr' with ⟨n, hnf, hrn⟩
    rcases List.mem_filter.mp hnf with ⟨hnmem, hcond⟩
    simp only [Bool.and_eq_true] at hcond
    subst hrn
    exact ⟨n, hnmem, rfl, by simpa using hcond.2⟩
  rcases List.mem_append.mp hr with h1 | h2
  · exact hanchor r h1
  · refine cteLevels_invariant (expandPathRow db endNode userId maxDepth) _ ?_ maxDepth
      (pathAnchorRows db startNode endNode userId) hanchor r h2
    intro pf r' _ hr'
    rcases mem_expandPathRow hr' with ⟨e, he, hu, tgt, htgt, hid, hrid⟩
    exact ⟨tgt, htgt, hrid.symm, (hco e he tgt htgt (Or.inr hid)).trans hu⟩

theorem mem_edgesBothIn {db : Db} {userId : String} {ids : List Nat}
    {t : Edge × Node × Node} (h : t ∈ edgesBothIn db userId ids) :
    t.1 ∈ db.edges ∧ t.1.userId = userId := by
  unfold edgesBothIn at h
  rcases List.mem_flatMap.mp h with ⟨e, he, ht⟩
  split at ht
  · rename_i hcond
    simp only [Bool.and_eq_true] at hcond
    rcases List.mem_flatMap.mp ht with ⟨src, _, ht2⟩
    split at ht2
    · rcases List.mem_map.mp ht2 with ⟨tgt, _, hteq⟩
      subst hteq
      exact ⟨he, by simpa using hcond.1.1⟩
    · cases ht2
  · cases ht

theorem mem_edgesTouching {db : Db} {userId : String} {ids : List Nat}
    {t : Edge × Node × Node} (h : t ∈ edgesTouching db userId ids) :
    t.1 ∈ db.edges ∧ t.1.userId = userId := by
  unfold edgesTouching at h
  rcases List.mem_flatMap.mp h with ⟨e, he, ht⟩
  split at ht
  · rename_i hcond
    simp only [Bool.and_eq_true] at hcond
    rcases List.mem_flatMap.mp ht with ⟨src, _, ht2⟩
    split at ht2
    · rcases List.mem_map.mp ht2 with ⟨tgt, _, hteq⟩
      subst hteq
      exact ⟨he, by simpa using hcond.1⟩
    · cases ht2
  · cases ht

theorem findSubgraph_some_cases {db : Db} {startName userId : String} {maxDepth : Nat}
    {res : SubgraphResult} (hres : findSubgraph db startName userId maxDepth = some res) :
    res = ⟨[], []⟩ ∨
      (res.nodes = subgraphNodes db startName userId maxDepth ∧
        res.edges = (edgesBothIn db userId
          ((subgraphNodes db startName userId maxDepth).map GraphNode.id)).map
          edgeRowToGraphEdge) := by
  unfold findSubgraph at hres
  split at hres
  · cases hres
  · split at hres
    · injection hres with h
      exact Or.inl h.symm
    · split at hres
      · injection hres with h
        exact Or.inl h.symm
      · injection hres with h
        subst h
        exact Or.inr ⟨rfl, rfl⟩

theorem findDeepContext_some_cases {db : Db} {startName userId : String} {maxDepth : Nat}
    {res : SubgraphResult} (hres : findDeepContext db startName userId maxDepth = some res) :
    res = ⟨[], []⟩ ∨
      (res.nodes = deepNodes db startName userId maxDepth ∧
        res.edges = (edgesBothIn db userId
          ((deepNodes db startName userId maxDepth).map GraphNode.id)).map
          edgeRowToGraphEdge) := by
  unfold findDeepContext at hres
  split at hres
  · cases hres
  · split at hres
    · injection hres with h
      exact Or.inl h.symm
    · split at hres
      · injection hres with h
        exact Or.inl h.symm
      · injection hres with h
        subst h
        exact Or.inr ⟨rfl, rfl⟩

theorem readGraph_cases (db : Db) (userId : String) (limit offset : Nat) :
    readGraph db userId limit offset = ⟨[], []⟩ ∨
      ((readGraph db userId limit offset).nodes = readGraphNodes db userId limit offset ∧
       (readGraph db userId limit offset).edges = (edgesTouching db userId
          ((readGraphNodes db userId limit offset).map GraphNode.id)).map
          edgeRowToGraphEdge) := by
  unfold readGraph
  split
  · exact Or.inl rfl
  · split
    · exact Or.inl rfl
    · exact Or.inr ⟨rfl, rfl⟩

theorem searchNodes_cases (db : Db) (query userId : String) :
    searchNodes db query userId = ⟨[], []⟩ ∨
      ((searchNodes db query userId).nodes = searchNodesScan db query userId ∧
       (searchNodes db query userId).edges = (edgesTouching db userId
          ((searchNodesScan db query userId).map GraphNode.id)).map
          edgeRowToGraphEdge) := by
  unfold searchNodes
  split
  · exact Or.inl rfl
  · split
    · exact Or.inl rfl
    · exact Or.inr ⟨rfl, rfl⟩

theorem deepNodes_mem (db : Db) (startName userId : String) (maxDepth : Nat)
    (r : GraphNode) (hr : r ∈ deepNodes db startName userId maxDepth) :
    ∃ row ∈ deepRows db startName userId maxDepth,
      r.id = row.id ∧ r.depth = row.depth := by
  unfold deepNodes hydrateNodes at hr
  rcases List.mem_map.mp hr with ⟨raw, hraw, hre⟩
  rcases List.mem_map.mp (List.mem_dedup.mp hraw) with ⟨row, hrow, hrawe⟩
  refine ⟨row, hrow, ?_, ?_⟩
  · rw [← hre, ← hrawe]
    rfl
  · rw [← hre, ← hrawe]
    rfl

theorem readGraphNodes_tenant (db : Db) (userId : String) (limit offset : Nat) :
    ∀ r ∈ readGraphNodes db userId limit offset,
      ∃ n ∈ db.nodes, n.id = r.id ∧ n.userId = userId := by
  intro r hr
  unfold readGraphNodes hydrateNodes at hr
  rcases List.mem_map.mp hr with ⟨raw, hraw, hre⟩
  rcases List.mem_map.mp hraw with ⟨n, hn, hrawe⟩
  have hn' : n ∈ (db.nodes.filter fun m => m.userId == userId).drop offset :=
    List.take_subset _ _ hn
  have hn'' : n ∈ db.nodes.filter fun m => m.userId == userId :=
    List.drop_subset _ _ hn'
  rcases List.mem_filter.mp hn'' with ⟨hnmem, hcond⟩
  refine ⟨n, hnmem, ?_, by simpa using hcond⟩
  rw [← hre, ← hrawe]
  rfl

theorem searchNodesScan_tenant (db : Db) (query userId : String) :
    ∀ r ∈ searchNodesScan db query userId,
      ∃ n ∈ db.nodes, n.id = r.id ∧ n.userId = userId := by
  intro r hr
  unfold searchNodesScan hydrateNodes at hr
  rcases List.mem_map.mp hr with ⟨raw, hraw, hre⟩
  rcases List.mem_map.mp hraw with ⟨n, hn, hrawe⟩
  have hn' : n ∈ db.nodes.filter fun m => m.userId == userId &&
      (likeContains query m.name
        || (match m.content with | some c => likeContains query c | none => false)
        || (match m.type with | some t => likeContains query t | none => false)) :=
    List.take_subset _ _ hn
  rcases List.mem_filter.mp hn' with ⟨hnmem, hcond⟩
  simp only [Bool.and_eq_true] at hcond
  refine ⟨n, hnmem, ?_, by simpa using hcond.1⟩
  rw [← hre, ← hrawe]
  rfl

/-- C8: every graph read given tenant `t` returns only nodes and edges
of tenant `t`.  Returned edge rows are tenant-`t` edge rows outright;
returned nodes of the recursive queries are tenant-`t` nodes provided
the database is tenant-coherent (edges never cross tenants — the
data-model invariant maintained by all writers); the nodes of
`readGraph` and `searchNodes` are tenant-`t` unconditionally; every
row of the `findPath` CTE names a tenant-`t` node; and `readGraph` on
a tenant with no data returns `{nodes: [], edges: []}`. -/
theorem C8_tenant_isolation :
    (∀ (db : Db) (startName userId : String) (maxDepth : Nat) (res : SubgraphResult),
      TenantCoherent db → findSubgraph db startName userId maxDepth = some res →
      (∀ r ∈ res.nodes, ∃ n ∈ db.nodes, n.id = r.id ∧ n.userId = userId) ∧
      (∀ ge ∈ res.edges, ∃ t : Edge × Node × Node,
        t.1 ∈ db.edges ∧ t.1.userId = userId ∧ ge = edgeRowToGraphEdge t)) ∧
    (∀ (db : Db) (startName userId : String) (maxDepth : Nat) (res : SubgraphResult),
      TenantCoherent db → findDeepContext db startName userId maxDepth = some res →
      (∀ r ∈ res.nodes, ∃ n ∈ db.nodes, n.id = r.id ∧ n.userId = userId) ∧
      (∀ ge ∈ res.edges, ∃ t : Edge × Node × Node,
        t.1 ∈ db.edges ∧ t.1.userId = userId ∧ ge = edgeRowToGraphEdge t)) ∧
    (∀ (db : Db) (userId : String) (limit offset : Nat),
      (∀ r ∈ (readGraph db userId limit offset).nodes,
        ∃ n ∈ db.nodes, n.id = r.id ∧ n.userId = userId) ∧
      (∀ ge ∈ (readGraph db userId limit offset).edges, ∃ t : Edge × Node × Node,
        t.1 ∈ db.edges ∧ t.1.userId = userId ∧ ge = edgeRowToGraphEdge t)) ∧
    (∀ (db : Db) (query userId : String),
      (∀ r ∈ (searchNodes db query userId).nodes,
        ∃ n ∈ db.nodes, n.id = r.id ∧ n.userId = userId) ∧
      (∀ ge ∈ (searchNodes db query userId).edges, ∃ t : Edge × Node × Node,
        t.1 ∈ db.edges ∧ t.1.userId = userId ∧ ge = edgeRowToGraphEdge t)) ∧
    (∀ (db : Db) (startNode endNode userId : String) (maxDepth : Nat),
      TenantCoherent db →
      ∀ r ∈ pathRows db startNode endNode userId maxDepth,
        ∃ n ∈ db.nodes, n.id = r.id ∧ n.userId = userId) ∧
    (∀ (db : Db) (userId : String) (limit offset : Nat),
      (∀ n ∈ db.nodes, n.userId ≠ userId) →
      readGraph db userId limit offset = ⟨[], []⟩) := by
  refine ⟨?_, ?_, ?_, ?_, ?_, ?_⟩
  · intro db startName userId maxDepth res hco hres
    rcases findSubgraph_some_cases hres with hempty | ⟨hn, he⟩
    · subst hempty
      exact ⟨fun r hr => absurd hr (by simp), fun ge hge => absurd hge (by simp)⟩
    · constructor
      · intro r hr
        rw [hn] at hr
        rcases subgraphNodes_mem db startName userId maxDepth r hr with
          ⟨row, hrow, hid, _⟩
        rcases subgraphRows_tenant db startName userId maxDepth hco row hrow with
          ⟨n, hnmem, hnid, hnu⟩
        exact ⟨n, hnmem, hnid.trans hid.symm, hnu⟩
      · intro ge hge
        rw [he] at hge
        rcases List.mem_map.mp hge with ⟨t, htmem, hteq⟩
        rcases mem_edgesBothIn htmem with ⟨hte, htu⟩
        exact ⟨t, hte, htu, hteq.symm⟩
  · intro db startName userId maxDepth res hco hres
    rcases findDeepContext_some_cases hres with hempty | ⟨hn, he⟩
    · subst hempty
      exact ⟨fun r hr => absurd hr (by simp), fun ge hge => absurd hge (by simp)⟩
    · constructor
      · intro r hr
        rw [hn] at hr
        rcases deepNodes_mem db startName userId maxDepth r hr with ⟨row, hrow, hid, _⟩
        rcases deepRows_tenant db startName userId maxDepth hco row hrow with
          ⟨n, hnmem, hnid, hnu⟩
        exact ⟨n, hnmem, hnid.trans hid.symm, hnu⟩
      · intro ge hge
        rw [he] at hge
        rcases List.mem_map.mp hge with ⟨t, htmem, hteq⟩
        rcases mem_edgesBothIn htmem with ⟨hte, htu⟩
        exact ⟨t, hte, htu, hteq.symm⟩
  · intro db userId limit offset
    rcases readGraph_cases db userId limit offset with hempty | ⟨hn, he⟩
    · rw [hempty]
      exact ⟨fun r hr => absurd hr (by simp), fun ge hge => absurd hge (by simp)⟩
    · constructor
      · intro r hr
        rw [hn] at hr
        exact readGraphNodes_tenant db userId limit offset r hr
      · intro ge hge
        rw [he] at hge
        rcases List.mem_map.mp hge with ⟨t, htmem, hteq⟩
        rcases mem_edgesTouching htmem with ⟨hte, htu⟩
        exact ⟨t, hte, htu, hteq.symm⟩
  · intro db query userId
    rcases searchNodes_cases db query userId with hempty | ⟨hn, he⟩
    · rw [hempty]
      exact ⟨fun r hr => absurd hr (by simp), fun ge hge => absurd hge (by simp)⟩
    · constructor
      · intro r hr
        rw [hn] at hr
        exact searchNodesScan_tenant db query userId r hr
      · intro ge hge
        rw [he] at hge
        rcases List.mem_map.mp hge with ⟨t, htmem, hteq⟩
        rcases mem_edgesTouching htmem with ⟨hte, htu⟩
        exact ⟨t, hte, htu, hteq.symm⟩
  · exact fun db s en u d hco => pathRows_tenant db s en u d hco
  · intro db userId limit offset hnone
    have hfilter : db.nodes.filter (fun n => n.userId == userId) = [] := by
      rw [List.filter_eq_nil_iff]
      intro n hn
      simp only [beq_iff_eq]
      exact fun h => hnone n hn (by simpa using h)
    unfold readGraph
    split
    · rfl
    · split
      · rfl
      · rename_i hne
        exfalso
        apply hne
        unfold readGraphNodes hydrateNodes
        rw [hfilter]
        simp

/-- Witness for `C8_tenant_isolation`: on the diamond database of
tenant `u1` (which is tenant-coherent), `read_graph("u2")` is empty. -/
theorem C8_tenant_isolation_witness :
    readGraph C6exDb "u2" 100 0 = ⟨[], []⟩ :=
  C8_tenant_isolation.2.2.2.2.2 C6exDb "u2" 100 0 (by decide)

/-! ## Transaction manager (src/core/transactions/TransactionManager.ts)

The operation passed to `executeTransaction` is abstracted by the list
of compensations it registers (via `addRollbackAction`, in order) and
by whether it throws.  Each compensation carries an identifier and
whether the compensating action itself succeeds when attempted.  The
SQL statements issued and the compensation attempts are collected as
an event trace. -/

/-- A registered compensating action. -/
structure CompAction where
  id : Nat
  succeeds : Bool
  deriving DecidableEq, Repr

/-- Observable events of one `executeTransaction` run. -/
inductive TMEvent
  | sqlBegin
  | sqlCommit
  | sqlRollback
  | sqlSavepoint (depth : Nat)
  | sqlReleaseSavepoint (depth : Nat)
  | sqlRollbackToSavepoint (depth : Nat)
  | compAttempt (id : Nat)
  | compFailureLogged (id : Nat)
  deriving DecidableEq, Repr

/-- The singleton's mutable fields: `inTransactionState`,
`transactionDepth` and the `rollbackActions` registry. -/
structure TMState where
  inTransactionState : Bool
  transactionDepth : Nat
  rollbackActions : List CompAction
  deriving DecidableEq, Repr

/-- The compensation sweep of `rollback()`: iterate the registry from
the last registered action down to the first; each action is
attempted, and a failing one is logged at error severity without
halting the sweep. -/
def compensationSweep (acts : List CompAction) : List TMEvent :=
  acts.reverse.flatMap fun c =>
    TMEvent.compAttempt c.id ::
      (if c.succeeds then [] else [TMEvent.compFailureLogged c.id])

/-- `rollback()`: issue SQL `ROLLBACK` when a transaction is open and
reset `inTransactionState`/`transactionDepth`; then run the
compensation sweep and clear the registry. -/
def TMState.rollback (st : TMState) : TMState × List TMEvent :=
  if st.inTransactionState then
    (⟨false, 0, []⟩, TMEvent.sqlRollback :: compensationSweep st.rollbackActions)
  else
    ({ st with rollbackActions := [] }, compensationSweep st.rollbackActions)

/-- `addRollbackAction`: append to the registry. -/
def TMState.addRollbackAction (st : TMState) (c : CompAction) : TMState :=
  { st with rollbackActions := st.rollbackActions ++ [c] }

/-- How one `executeTransaction` call ends. -/
inductive TMOutcome
  | concurrencyError
  | opErrorPropagated
  | committed
  deriving DecidableEq, Repr

/-- `executeTransaction(operation)`.  At depth > 0 a savepoint bounds
the operation (its registrations stay in the registry; no sweep runs).
At depth 0, `beginTransaction` fails with `'Transaction already in
progress'` when a transaction is open; otherwise it issues `BEGIN` and
clears the registry, the operation registers `regs`, and the call ends
with `commit()` (`COMMIT`, registry cleared without running) or, when
the operation throws, with `rollback()` followed by rethrowing. -/
def TransactionManager.executeTransaction (st : TMState) (regs : List CompAction)
    (opFails : Bool) : TMState × List TMEvent × TMOutcome :=
  if 0 < st.transactionDepth then
    if opFails then
      ({ st with rollbackActions := st.rollbackActions ++ regs },
        [TMEvent.sqlSavepoint st.transactionDepth,
         TMEvent.sqlRollbackToSavepoint st.transactionDepth],
        TMOutcome.opErrorPropagated)
    else
      ({ st with rollbackActions := st.rollbackActions ++ regs },
        [TMEvent.sqlSavepoint st.transactionDepth,
         TMEvent.sqlReleaseSavepoint st.transactionDepth],
        TMOutcome.committed)
  else if st.inTransactionState then
    (st, [], TMOutcome.concurrencyError)
  else if opFails then
    ((TMState.rollback ⟨true, 1, regs⟩).1,
      TMEvent.sqlBegin :: (TMState.rollback ⟨true, 1, regs⟩).2,
      TMOutcome.opErrorPropagated)
  else
    (⟨false, 0, []⟩, [TMEvent.sqlBegin, TMEvent.sqlCommit], TMOutcome.committed)

/-- The compensation attempts of an event trace, in order. -/
def attemptedIds (evs : List TMEvent) : List Nat :=
  evs.filterMap fun ev =>
    match ev with
    | TMEvent.compAttempt i => some i
    | _ => none

theorem attemptedIds_sweep (acts : List CompAction) :
    attemptedIds (compensationSweep acts) = (acts.map CompAction.id).reverse := by
  unfold compensationSweep
  rw [← List.map_reverse]
  generalize acts.reverse = l
  induction l with
  | nil => rfl
  | cons c cs ih =>
    cases hc : c.succeeds <;>
      simp [attemptedIds, hc, List.flatMap_cons, List.filterMap_append] <;>
      simpa [attemptedIds] using ih

theorem compFailureLogged_mem_sweep (acts : List CompAction) (c : CompAction)
    (hc : c ∈ acts) (hf : c.succeeds = false) :
    TMEvent.compFailureLogged c.id ∈ compensationSweep acts := by
  unfold compensationSweep
  refine List.mem_flatMap.mpr ⟨c, List.mem_reverse.mpr hc, ?_⟩
  rw [hf]
  simp

/-- C5: for any outer call (`depth = 0`, no transaction open) whose
operation raises, `executeTransaction` issues `ROLLBACK`, attempts
every registered compensation exactly once in reverse registration
order — a failing compensation is logged but does not halt the sweep —
and clears the registry; for any outer call that commits, the trace is
`BEGIN, COMMIT`, no compensation is attempted, and the registry is
cleared. -/
theorem C5_outer_transaction_rollback_and_commit (st : TMState) (regs : List CompAction)
    (hdepth : st.transactionDepth = 0) (hidle : st.inTransactionState = false) :
    ((TransactionManager.executeTransaction st regs true).2.2 =
        TMOutcome.opErrorPropagated ∧
      (TransactionManager.executeTransaction st regs true).2.1 =
        TMEvent.sqlBegin :: TMEvent.sqlRollback :: compensationSweep regs ∧
      attemptedIds (TransactionManager.executeTransaction st regs true).2.1 =
        (regs.map CompAction.id).reverse ∧
      (∀ c ∈ regs, c.succeeds = false →
        TMEvent.compFailureLogged c.id ∈
          (TransactionManager.executeTransaction st regs true).2.1) ∧
      (TransactionManager.executeTransaction st regs true).1.rollbackActions = []) ∧
    ((TransactionManager.executeTransaction st regs false).2.2 = TMOutcome.committed ∧
      (TransactionManager.executeTransaction st regs false).2.1 =
        [TMEvent.sqlBegin, TMEvent.sqlCommit] ∧
      attemptedIds (TransactionManager.executeTransaction st regs false).2.1 = [] ∧
      (TransactionManager.executeTransaction st regs false).1.rollbackActions = []) := by
  have hexecF : TransactionManager.executeTransaction st regs true =
      ((⟨false, 0, []⟩ : TMState),
        TMEvent.sqlBegin :: TMEvent.sqlRollback :: compensationSweep regs,
        TMOutcome.opErrorPropagated) := by
    unfold TransactionManager.executeTransaction TMState.rollback
    rw [hdepth, hidle]
    simp
  have hexecC : TransactionManager.executeTransaction st regs false =
      ((⟨false, 0, []⟩ : TMState),
        [TMEvent.sqlBegin, TMEvent.sqlCommit], TMOutcome.committed) := by
    unfold TransactionManager.executeTransaction
    rw [hdepth, hidle]
    simp
  refine ⟨⟨?_, ?_, ?_, ?_, ?_⟩, ?_, ?_, ?_, ?_⟩
  · rw [hexecF]
  · rw [hexecF]
  · rw [hexecF]
    show attemptedIds (TMEvent.sqlBegin :: TMEvent.sqlRollback ::
      compensationSweep regs) = (regs.map CompAction.id).reverse
    simpa [attemptedIds] using attemptedIds_sweep regs
  · intro c hc hf
    rw [hexecF]
    exact List.mem_cons_of_mem _ (List.mem_cons_of_mem _
      (compFailureLogged_mem_sweep regs c hc hf))
  · rw [hexecF]
  · rw [hexecC]
  · rw [hexecC]
  · rw [hexecC]
    rfl
  · rw [hexecC]

/-- Witness for `C5_outer_transaction_rollback_and_commit` at an idle
manager with two registered compensations, the second of which fails:
both are attempted, latest first. -/
theorem C5_outer_transaction_rollback_and_commit_witness :
    attemptedIds (TransactionManager.executeTransaction ⟨false, 0, []⟩
        [⟨1, true⟩, ⟨2, false⟩] true).2.1 = [2, 1] :=
  ((C5_outer_transaction_rollback_and_commit ⟨false, 0, []⟩
      [⟨1, true⟩, ⟨2, false⟩] rfl rfl).1.2.2.1).trans (by decide)

/-! ## Memory manager (src/core/memory/MemoryManager.ts) -/

/-- The SQLite unique-index constraint violation on
`uid_nodes_name_user (name, user_id)`. -/
inductive SqlError
  | uniqueViolation
  deriving DecidableEq, Repr

/-- `getOrCreateNode(name, type, userId, metadata)`, with the race
made explicit: the `findFirst` read sees `dbAtRead` while the insert
runs against `dbAtInsert` (the two coincide when no concurrent creator
interleaves between read and insert).  The insert raises the
unique-index violation when a row with the same `(name, user_id)` is
present at insert time; the source has no catch around the insert, so
the violation propagates.  An inserted node gets the schema defaults
`status = 'PENDING'`, `type = type || 'concept'`. -/
def getOrCreateNode (dbAtRead dbAtInsert : Db) (name type userId : String)
    (metadata : Option String) (now : Int) : Except SqlError (Nat × Db) :=
  match dbAtRead.nodes.find? (fun n => n.name == jsTrim name && n.userId == userId) with
  | some existing => Except.ok (existing.id, dbAtInsert)
  | none =>
      if dbAtInsert.nodes.any (fun n => n.name == jsTrim name && n.userId == userId) then
        Except.error SqlError.uniqueViolation
      else
        Except.ok (dbAtInsert.nextNodeId,
          { dbAtInsert with
              nodes := dbAtInsert.nodes ++
                [⟨dbAtInsert.nextNodeId, jsTrim name,
                  some (if type = "" then "concept" else type), none, userId, none,
                  metadata, "PENDING", now⟩]
              nextNodeId := dbAtInsert.nextNodeId + 1 })

/-- `createEdge(sourceId, targetId, type, userId)`: skip self-loops,
else insert an edge with `type.toLowerCase() || 'related_to'` and
weight 1.0. -/
def createEdge (db : Db) (sourceId targetId : Nat) (type userId : String) : Db :=
  if sourceId == targetId then
    db
  else
    { db with
        edges := db.edges ++ [⟨db.nextEdgeId, sourceId, targetId,
          (if asciiLower type = "" then "related_to" else asciiLower type), 1, userId⟩]
        nextEdgeId := db.nextEdgeId + 1 }

/-- One entity returned by `EntityExtractor.extract`. -/
structure ExtractedEntity where
  name : String
  type : String
  metadata : Option String
  deriving DecidableEq, Repr

/-- One relationship returned by `EntityExtractor.extract`. -/
structure ExtractedRel where
  fromName : String
  toName : String
  type : String
  deriving DecidableEq, Repr

/-- `ExtractedData`. -/
structure ExtractedData where
  entities : List ExtractedEntity
  relationships : List ExtractedRel
  deriving DecidableEq, Repr

/-- The body of the entity loop of the graph transaction: get or
create the entity node, record it in the node map, and create a
`mentions` edge from the anchor. -/
def entityStep (userId : String) (now : Int) (mainNodeId : Nat)
    (acc : Db × List (String × Nat)) (entity : ExtractedEntity) :
    Except SqlError (Db × List (String × Nat)) :=
  match getOrCreateNode acc.1 acc.1 entity.name entity.type userId entity.metadata now with
  | Except.error e => Except.error e
  | Except.ok (eid, db1) =>
      Except.ok (createEdge db1 mainNodeId eid "mentions" userId,
        (entity.name, eid) :: acc.2)

/-- `nodeMap.get(name) || await getOrCreateNode(name, 'concept',
userId)`: a map hit of id 0 is falsy in JS and falls through to the
create call. -/
def resolveRelNode (db : Db) (nodeMap : List (String × Nat)) (name userId : String)
    (now : Int) : Except SqlError (Nat × Db) :=
  match nodeMap.find? (fun p => p.1 == name) with
  | some p =>
      if p.2 == 0 then
        getOrCreateNode db db name "concept" userId none now
      else
        Except.ok (p.2, db)
  | none => getOrCreateNode db db name "concept" userId none now

/-- The body of the relationship loop of the graph transaction:
resolve both endpoints (creating `concept` nodes as needed, without
updating the node map) and create the typed edge. -/
def relStep (userId : String) (now : Int) (nodeMap : List (String × Nat))
    (db : Db) (rel : ExtractedRel) : Except SqlError Db :=
  match resolveRelNode db nodeMap rel.fromName userId now with
  | Except.error e => Except.error e
  | Except.ok (fromId, db1) =>
      match resolveRelNode db1 nodeMap rel.toName userId now with
      | Except.error e => Except.error e
      | Except.ok (toId, db2) => Except.ok (createEdge db2 fromId toId rel.type userId)

/-- The SQL transaction of `processInBackground` (step D): resolve the
anchor by `(name, user_id)` — returning unchanged when absent — then
run the entity loop (seeding the node map with the anchor) and the
relationship loop.  Nothing in this transaction updates the anchor's
`status` column. -/
def processGraphTx (db : Db) (memNodeName userId : String) (ed : ExtractedData)
    (now : Int) : Except SqlError Db :=
  match db.nodes.find? (fun n => n.name == memNodeName && n.userId == userId) with
  | none => Except.ok db
  | some mainNode =>
      match ed.entities.foldlM (entityStep userId now mainNode.id)
          (db, [(memNodeName, mainNode.id)]) with
      | Except.error e => Except.error e
      | Except.ok (db1, nodeMap) => ed.relationships.foldlM (relStep userId now nodeMap) db1

/-- A `VectorRecord` of the LanceDB store. -/
structure VectorRecord where
  id : String
  vector : List Rat
  text : String
  userid : String
  timestamp : Int
  nodeName : String
  metadata : String
  deriving DecidableEq, Repr

/-- How a background run ends. -/
inductive BackgroundOutcome
  | embedFailed
  | vectorWriteFailed
  | sqlTxFailed
  | completed
  deriving DecidableEq, Repr

/-- The observable effects of one background run. -/
structure BackgroundResult where
  db : Db
  vectors : List VectorRecord
  registeredCompensations : List CompAction
  attemptedCompensations : List CompAction
  outcome : BackgroundOutcome
  deriving DecidableEq, Repr

/-- `processInBackground(content, userId, vectorId, memNodeName,
metadata)`.  The embedding call, the vector write and the SQL
transaction environment are abstracted by the booleans `embedOk`,
`vectorWriteOk` and `txOk`; the extractor's output is `extracted` when
`extractionOk` and the empty sets otherwise (its failure is caught).
Step B appends the record to the vector store (after `addVectors`
validates the node name).  The pipeline registers *no* compensating
action with the transaction manager, so an SQL-side abort in step D
rolls back the graph while sweeping an empty registry — the vector
record stays.  Step D never touches the anchor's `status`. -/
def processInBackground (db : Db) (vs : List VectorRecord)
    (content userId vectorId memNodeName metadata : String) (vector : List Rat)
    (extracted : ExtractedData) (embedOk vectorWriteOk extractionOk txOk : Bool)
    (now : Int) : BackgroundResult :=
  if !embedOk then
    ⟨db, vs, [], [], BackgroundOutcome.embedFailed⟩
  else if !(validNodeName memNodeName && vectorWriteOk) then
    ⟨db, vs, [], [], BackgroundOutcome.vectorWriteFailed⟩
  else if !txOk then
    ⟨db, vs ++ [⟨vectorId, vector, content, userId, now, memNodeName, metadata⟩],
      [], [], BackgroundOutcome.sqlTxFailed⟩
  else
    match processGraphTx db memNodeName userId
        (if extractionOk then extracted else ⟨[], []⟩) now with
    | Except.error _ =>
        ⟨db, vs ++ [⟨vectorId, vector, content, userId, now, memNodeName, metadata⟩],
          [], [], BackgroundOutcome.sqlTxFailed⟩
    | Except.ok db' =>
        ⟨db', vs ++ [⟨vectorId, vector, content, userId, now, memNodeName, metadata⟩],
          [], [], BackgroundOutcome.completed⟩

/-! ## Search hydration (MemoryManager.search) -/

/-- A LanceDB `SearchResult`: a `VectorRecord` plus the reported
`_distance`. -/
structure SearchHit where
  id : String
  vector : List Rat
  text : String
  userid : String
  timestamp : Int
  nodeName : String
  metadata : String
  distance : Rat
  deriving DecidableEq, Repr

/-- The `memory` field of a search result: a hydrated graph node or
the raw vector hit. -/
inductive MemoryRef
  | node (n : Node)
  | vec (v : SearchHit)
  deriving DecidableEq, Repr

/-- One element of the array `search` returns: `{memory, similarity,
context}`, where a missing `similarity` key is `none`. -/
structure MemorySearchResult where
  memory : MemoryRef
  similarity : Option Rat
  context : Option SubgraphResult
  deriving DecidableEq, Repr

/-- The loop body of `search` for one vector hit: find the graph node
by `embedding_id`; if found, expand a 1-hop subgraph and return
`{memory: node, similarity: 0.0, context: subgraph}` (the constant 0.0
is hard-coded; the hit's distance is not consulted); otherwise return
`{memory: vecRes, context: null}` with no similarity field. -/
def searchStep (db : Db) (userId : String) (vecRes : SearchHit) :
    Option MemorySearchResult :=
  match db.nodes.find? (fun n => n.embeddingId == some vecRes.id) with
  | some node =>
      (findSubgraph db node.name userId 1).map fun sub =>
        ⟨MemoryRef.node node, some 0, some sub⟩
  | none => some ⟨MemoryRef.vec vecRes, none, none⟩

/-- The hydration loop of `search` over the vector results (`none`
models an exception escaping the loop). -/
def searchHydrate (db : Db) (userId : String) :
    List SearchHit → Option (List MemorySearchResult)
  | [] => some []
  | v :: rest =>
      match searchStep db userId v with
      | none => none
      | some r =>
          match searchHydrate db userId rest with
          | none => none
          | some rs => some (r :: rs)

/-! ## Embedder (Embedder.ts) -/

/-- The configuration and environment a call to `Embedder.embed`
runs under: `ENV.NODE_ENV`, `ENV.LLM_PROVIDER`, whether the local
pipeline is unavailable (`mockMode`), whether the external embeddings
API call succeeds, and whether the L1/L2 cache hits. -/
structure EmbedEnv where
  nodeEnv : String
  provider : String
  mockMode : Bool
  externalOk : Bool
  cacheHit : Bool
  deriving DecidableEq, Repr

/-- Which branch of `embed` produced the returned vector. -/
inductive EmbedResult
  | fromCache
  | fromExternal
  | rngMock (dim : Nat)
  | fromLocalModel
  | errorRaised
  deriving DecidableEq, Repr

/-- `embedExternal`: on API failure, rethrow when `NODE_ENV ===
'production'`, else return a `crypto.randomFillSync` vector of
dimension 1536. -/
def embedExternal (env : EmbedEnv) : EmbedResult :=
  if env.externalOk then
    EmbedResult.fromExternal
  else if env.nodeEnv = "production" then
    EmbedResult.errorRaised
  else
    EmbedResult.rngMock 1536

/-- `Embedder.embed(text)`: reject empty text; serve cache hits; for
the external providers call `embedExternal`; otherwise use the local
pipeline — and when it is unavailable (`mockMode`), return a
`crypto.randomFillSync` vector of dimension 384 *unconditionally*
(this branch has no `NODE_ENV` guard in the source). -/
def Embedder.embed (env : EmbedEnv) (text : String) : EmbedResult :=
  if jsTrim text = "" then
    EmbedResult.errorRaised
  else if env.cacheHit then
    EmbedResult.fromCache
  else if env.provider = "openai" ∨ env.provider = "lmstudio" then
    embedExternal env
  else if env.mockMode then
    EmbedResult.rngMock 384
  else
    EmbedResult.fromLocalModel

/-! ## C1/C2: effects of the background pipeline -/

/-- `d2` extends `d1` by appending nodes whose status is the schema
default `'PENDING'`; pre-existing rows are untouched. -/
def DbGrowsPending (d1 d2 : Db) : Prop :=
  ∃ new, d2.nodes = d1.nodes ++ new ∧ ∀ n ∈ new, n.status = "PENDING"

theorem DbGrowsPending.rfl (d : Db) : DbGrowsPending d d :=
  ⟨[], by simp, by simp⟩

theorem DbGrowsPending.trans {a b c : Db} (h1 : DbGrowsPending a b)
    (h2 : DbGrowsPending b c) : DbGrowsPending a c := by
  rcases h1 with ⟨n1, e1, p1⟩
  rcases h2 with ⟨n2, e2, p2⟩
  refine ⟨n1 ++ n2, by rw [e2, e1, List.append_assoc], ?_⟩
  intro n hn
  rcases List.mem_append.mp hn with h | h
  · exact p1 n h
  · exact p2 n h

theorem createEdge_nodes (db : Db) (s t : Nat) (ty u : String) :
    (createEdge db s t ty u).nodes = db.nodes := by
  unfold createEdge
  split <;> rfl

theorem getOrCreateNode_grows {dbR dbI : Db} {name type userId : String}
    {metadata : Option String} {now : Int} {eid : Nat} {db' : Db}
    (h : getOrCreateNode dbR dbI name type userId metadata now = Except.ok (eid, db')) :
    DbGrowsPending dbI db' := by
  unfold getOrCreateNode at h
  split at h
  · simp only [Except.ok.injEq, Prod.mk.injEq] at h
    exact h.2 ▸ DbGrowsPending.rfl dbI
  · split at h
    · cases h
    · simp only [Except.ok.injEq, Prod.mk.injEq] at h
      refine h.2 ▸ ⟨[⟨dbI.nextNodeId, jsTrim name,
        some (if type = "" then "concept" else type), none, userId, none,
        metadata, "PENDING", now⟩], Eq.refl _, ?_⟩
      intro n hn
      rcases List.mem_singleton.mp hn with rfl
      rfl

theorem foldlM_except_inv {σ α : Type} (f : σ → α → Except SqlError σ)
    (R : σ → σ → Prop) (hrefl : ∀ s, R s s)
    (htrans : ∀ a b c, R a b → R b c → R a c)
    (hstep : ∀ s a s', f s a = Except.ok s' → R s s') :
    ∀ (l : List α) (s s' : σ), l.foldlM f s = Except.ok s' → R s s' := by
  intro l
  induction l with
  | nil =>
    intro s s' h
    simp only [List.foldlM_nil] at h
    injection h with h'
    exact h' ▸ hrefl s
  | cons a as ih =>
    intro s s' h
    rw [List.foldlM_cons] at h
    cases hf : f s a with
    | error e =>
      rw [hf] at h
      cases h
    | ok s1 =>
      rw [hf] at h
      exact htrans s s1 s' (hstep s a s1 hf) (ih s1 s' h)

theorem entityStep_grows (userId : String) (now : Int) (mainNodeId : Nat) :
    ∀ (acc : Db × List (String × Nat)) (entity : ExtractedEntity)
      (acc' : Db × List (String × Nat)),
      entityStep userId now mainNodeId acc entity = Except.ok acc' →
      DbGrowsPending acc.1 acc'.1 := by
  intro acc entity acc' h
  unfold entityStep at h
  split at h
  · cases h
  · rename_i eid db1 heq
    injection h with h'
    have h1 : DbGrowsPending acc.1 db1 := getOrCreateNode_grows heq
    refine h1.trans ?_
    rw [← h']
    exact ⟨[], by simp [createEdge_nodes], by simp⟩

theorem resolveRelNode_grows {db : Db} {nodeMap : List (String × Nat)}
    {name userId : String} {now : Int} {nid : Nat} {db' : Db}
    (h : resolveRelNode db nodeMap name userId now = Except.ok (nid, db')) :
    DbGrowsPending db db' := by
  unfold resolveRelNode at h
  split at h
  · split at h
    · exact getOrCreateNode_grows h
    · simp only [Except.ok.injEq, Prod.mk.injEq] at h
      exact h.2 ▸ DbGrowsPending.rfl db
  · exact getOrCreateNode_grows h

theorem relStep_grows (userId : String) (now : Int) (nodeMap : List (String × Nat)) :
    ∀ (db : Db) (rel : ExtractedRel) (db' : Db),
      relStep userId now nodeMap db rel = Except.ok db' → DbGrowsPending db db' := by
  intro db rel db' h
  unfold relStep at h
  split at h
  · cases h
  · rename_i fromId db1 heq1
    split at h
    · cases h
    · rename_i toId db2 heq2
      injection h with h'
      refine (resolveRelNode_grows heq1).trans ((resolveRelNode_grows heq2).trans ?_)
      rw [← h']
      exact ⟨[], by simp [createEdge_nodes], by simp⟩

theorem processGraphTx_grows {db : Db} {memNodeName userId : String}
    {ed : ExtractedData} {now : Int} {db' : Db}
    (h : processGraphTx db memNodeName userId ed now = Except.ok db') :
    DbGrowsPending db db' := by
  unfold processGraphTx at h
  split at h
  · injection h with h'
    exact h' ▸ DbGrowsPending.rfl db
  · rename_i mainNode _
    split at h
    · cases h
    · rename_i db1 nodeMap heqfold
      have h1 : DbGrowsPending db db1 := by
        have := foldlM_except_inv (entityStep userId now mainNode.id)
          (fun a b => DbGrowsPending a.1 b.1) (fun s => DbGrowsPending.rfl s.1)
          (fun a b c => DbGrowsPending.trans)
          (entityStep_grows userId now mainNode.id)
          ed.entities (db, [(memNodeName, mainNode.id)]) (db1, nodeMap) heqfold
        exact this
      exact h1.trans (foldlM_except_inv (relStep userId now nodeMap) DbGrowsPending
        DbGrowsPending.rfl (fun a b c => DbGrowsPending.trans)
        (relStep_grows userId now nodeMap) ed.relationships db1 db' h)

theorem processInBackground_completed (db : Db) (vs : List VectorRecord)
    (content userId vectorId memNodeName metadata : String) (vector : List Rat)
    (extracted : ExtractedData) (extractionOk : Bool) (now : Int)
    (hout : (processInBackground db vs content userId vectorId memNodeName metadata
      vector extracted true true extractionOk true now).outcome =
        BackgroundOutcome.completed) :
    ∃ db', processGraphTx db memNodeName userId
        (if extractionOk then extracted else ⟨[], []⟩) now = Except.ok db' ∧
      (processInBackground db vs content userId vectorId memNodeName metadata vector
        extracted true true extractionOk true now).db = db' := by
  by_cases hv : validNodeName memNodeName
  · cases heq : processGraphTx db memNodeName userId
        (if extractionOk then extracted else ⟨[], []⟩) now with
    | error e =>
      exfalso
      unfold processInBackground at hout
      rw [heq] at hout
      simp [hv] at hout
    | ok db' =>
      refine ⟨db', Eq.refl _, ?_⟩
      unfold processInBackground
      rw [heq]
      simp [hv]
  · exfalso
    unfold processInBackground at hout
    simp [hv] at hout

/-- C1: the code is the bug.  A background run that completes (with
embedding, vector write, extraction and the SQL transaction all
succeeding) never sets any node's status to `READY`: every pre-run
row — the `PENDING` anchor included — survives unchanged, and every
row the transaction adds carries the schema default `PENDING`.  The
assignment `status = 'READY'` the spec describes does not occur
anywhere in the pipeline. -/
theorem C1_background_never_promotes_to_ready (db : Db) (vs : List VectorRecord)
    (content userId vectorId memNodeName metadata : String) (vector : List Rat)
    (extracted : ExtractedData) (extractionOk : Bool) (now : Int)
    (hout : (processInBackground db vs content userId vectorId memNodeName metadata
      vector extracted true true extractionOk true now).outcome =
        BackgroundOutcome.completed) :
    (∀ anchor ∈ db.nodes, anchor ∈ (processInBackground db vs content userId vectorId
      memNodeName metadata vector extracted true true extractionOk true now).db.nodes) ∧
    (∀ n ∈ (processInBackground db vs content userId vectorId memNodeName metadata
        vector extracted true true extractionOk true now).db.nodes,
      n ∉ db.nodes → n.status = "PENDING") := by
  rcases processInBackground_completed db vs content userId vectorId memNodeName
    metadata vector extracted extractionOk now hout with ⟨db', htx, hdb⟩
  rcases processGraphTx_grows htx with ⟨new, hnodes, hpending⟩
  rw [hdb, hnodes]
  constructor
  · intro anchor ha
    exact List.mem_append.mpr (Or.inl ha)
  · intro n hn hnot
    rcases List.mem_append.mp hn with h | h
    · exact absurd h hnot
    · exact hpending n h

/-- The one-memory database for the C1/C2 witnesses: the anchor
`mem-abc12345` was inserted by the fast path with status `PENDING`. -/
def C1exDb : Db :=
  { nodes := [⟨1, "mem-abc12345", some "memory", some "hello", "u1", some "vec-1",
      none, "PENDING", 0⟩],
    edges := []
    nextNodeId := 2
    nextEdgeId := 1 }

/-- One extracted entity, as in the ingest scenario. -/
def C1ed : ExtractedData :=
  ⟨[⟨"Alice", "person", none⟩], []⟩

/-- Witness for `C1_background_never_promotes_to_ready`: the completed
concrete run keeps the anchor row — status still `PENDING` — in the
final database. -/
theorem C1_background_never_promotes_to_ready_witness :
    (⟨1, "mem-abc12345", some "memory", some "hello", "u1", some "vec-1", none,
      "PENDING", 0⟩ : Node) ∈
      (processInBackground C1exDb [] "hello" "u1" "vec-1" "mem-abc12345" "" [1] C1ed
        true true true true 5).db.nodes :=
  (C1_background_never_promotes_to_ready C1exDb [] "hello" "u1" "vec-1" "mem-abc12345"
      "" [1] C1ed true 5 rfl).1 _ (by decide)

/-- C2: the code is the bug.  `processInBackground` registers no
compensating action at all — in particular no vector-delete before the
vector upsert — so a run whose SQL transaction aborts ends with the
just-inserted vector record still present, the graph unchanged, the
compensation registry empty and no compensation attempted: the orphan
vector survives. -/
theorem C2_sql_abort_leaves_orphan_vector (db : Db) (vs : List VectorRecord)
    (content userId vectorId memNodeName metadata : String) (vector : List Rat)
    (extracted : ExtractedData) (extractionOk : Bool) (now : Int)
    (hvalid : validNodeName memNodeName = true) :
    processInBackground db vs content userId vectorId memNodeName metadata vector
        extracted true true extractionOk false now =
      ⟨db, vs ++ [⟨vectorId, vector, content, userId, now, memNodeName, metadata⟩],
        [], [], BackgroundOutcome.sqlTxFailed⟩ ∧
    (⟨vectorId, vector, content, userId, now, memNodeName, metadata⟩ : VectorRecord) ∈
      (processInBackground db vs content userId vectorId memNodeName metadata vector
        extracted true true extractionOk false now).vectors ∧
    (processInBackground db vs content userId vectorId memNodeName metadata vector
      extracted true true extractionOk false now).registeredCompensations = [] ∧
    (processInBackground db vs content userId vectorId memNodeName metadata vector
      extracted true true extractionOk false now).attemptedCompensations = [] := by
  have heq : processInBackground db vs content userId vectorId memNodeName metadata
      vector extracted true true extractionOk false now =
      ⟨db, vs ++ [⟨vectorId, vector, content, userId, now, memNodeName, metadata⟩],
        [], [], BackgroundOutcome.sqlTxFailed⟩ := by
    unfold processInBackground
    simp [hvalid]
  refine ⟨heq, ?_, ?_, ?_⟩
  · rw [heq]
    simp
  · rw [heq]
  · rw [heq]

/-- Witness for `C2_sql_abort_leaves_orphan_vector` at the concrete
ingest whose SQL transaction fails: the vector record for `vec-1`
survives with an empty compensation registry. -/
theorem C2_sql_abort_leaves_orphan_vector_witness :
    (⟨"vec-1", [1], "hello", "u1", 5, "mem-abc12345", ""⟩ : VectorRecord) ∈
      (processInBackground C1exDb [] "hello" "u1" "vec-1" "mem-abc12345" "" [1] C1ed
        true true true false 5).vectors :=
  (C2_sql_abort_leaves_orphan_vector C1exDb [] "hello" "u1" "vec-1" "mem-abc12345" ""
    [1] C1ed true 5 (by decide)).2.1

/-! ## C9: the unique-index race in getOrCreateNode -/

/-- Read-time database of the race: `("Alice", "u1")` not yet
visible. -/
def C9dbRead : Db :=
  ⟨[], [], 1, 1⟩

/-- Insert-time database of the race: a concurrent creator has
committed `("Alice", "u1")` in the meantime. -/
def C9dbInsert : Db :=
  ⟨[⟨1, "Alice", some "person", none, "u1", none, none, "PENDING", 0⟩], [], 2, 1⟩

/-- C9, counterexample to the claim as stated: a loser of the
`(name, tenant)` race receives the unique-index violation from its
insert and `getOrCreateNode` propagates it — it does not re-read and
return the winner's row id 1. -/
theorem C9_counterexample_violation_propagates :
    getOrCreateNode C9dbRead C9dbInsert "Alice" "person" "u1" none 0 =
      Except.error SqlError.uniqueViolation :=
  rfl

/-- C9 (amended): `getOrCreateNode` resolves only rows already visible
at its initial read; when the read misses and the insert then hits the
unique-index violation, the violation propagates to the caller — there
is no retry; when the read misses and no conflicting row exists at
insert time, a fresh `PENDING` row is inserted. -/
theorem C9_getOrCreateNode_race_behavior (dbR dbI : Db) (name type userId : String)
    (metadata : Option String) (now : Int) :
    (∀ existing,
      dbR.nodes.find? (fun n => n.name == jsTrim name && n.userId == userId) =
        some existing →
      getOrCreateNode dbR dbI name type userId metadata now =
        Except.ok (existing.id, dbI)) ∧
    (dbR.nodes.find? (fun n => n.name == jsTrim name && n.userId == userId) = none →
      (dbI.nodes.any fun n => n.name == jsTrim name && n.userId == userId) = true →
      getOrCreateNode dbR dbI name type userId metadata now =
        Except.error SqlError.uniqueViolation) ∧
    (dbR.nodes.find? (fun n => n.name == jsTrim name && n.userId == userId) = none →
      (dbI.nodes.any fun n => n.name == jsTrim name && n.userId == userId) = false →
      getOrCreateNode dbR dbI name type userId metadata now =
        Except.ok (dbI.nextNodeId,
          { dbI with
              nodes := dbI.nodes ++ [⟨dbI.nextNodeId, jsTrim name,
                some (if type = "" then "concept" else type), none, userId, none,
                metadata, "PENDING", now⟩]
              nextNodeId := dbI.nextNodeId + 1 })) := by
  refine ⟨?_, ?_, ?_⟩
  · intro existing hfind
    unfold getOrCreateNode
    rw [hfind]
  · intro hfind hany
    unfold getOrCreateNode
    rw [hfind, hany]
    rfl
  · intro hfind hany
    unfold getOrCreateNode
    rw [hfind, hany]
    rfl

/-- Witness for `C9_getOrCreateNode_race_behavior` at the concrete
race: a missed read followed by a conflicting insert yields the
propagated violation. -/
theorem C9_getOrCreateNode_race_behavior_witness :
    getOrCreateNode C9dbRead C9dbInsert "Bob" "person" "u1" none 0 =
      Except.error SqlError.uniqueViolation ∨
    getOrCreateNode C9dbRead C9dbInsert "Alice" "person" "u1" none 0 =
      Except.error SqlError.uniqueViolation :=
  Or.inr ((C9_getOrCreateNode_race_behavior C9dbRead C9dbInsert "Alice" "person" "u1"
    none 0).2.1 (by decide) (by decide))

/-! ## C10: hydrated search results carry the constant similarity -/

/-- C10: every vector hit that hydrates to a graph node (matched by
`embedding_id`) yields a result with `similarity = 0.0` — the hit's
reported distance is never consulted — and a populated 1-hop context;
a hit with no matching graph node yields `{memory: hit, context:
null}` with no similarity field at all; and every element of the
returned array arises from one of the vector hits this way. -/
theorem C10_search_similarity_constant :
    (∀ (db : Db) (userId : String) (v : SearchHit) (res : MemorySearchResult),
      searchStep db userId v = some res →
      (∃ node ∈ db.nodes, (node.embeddingId == some v.id) = true ∧
        res.memory = MemoryRef.node node ∧ res.similarity = some 0 ∧
        res.context.isSome = true) ∨
      (db.nodes.find? (fun n => n.embeddingId == some v.id) = none ∧
        res = ⟨MemoryRef.vec v, none, none⟩)) ∧
    (∀ (db : Db) (userId : String) (vrs : List SearchHit)
      (results : List MemorySearchResult),
      searchHydrate db userId vrs = some results →
      ∀ r ∈ results, ∃ v ∈ vrs, searchStep db userId v = some r) := by
  constructor
  · intro db userId v res h
    unfold searchStep at h
    split at h
    · rename_i node hfind
      left
      rcases Option.map_eq_some'.mp h with ⟨sub, _, hres⟩
      have hp := List.find?_some hfind
      refine ⟨node, List.mem_of_find?_eq_some hfind, hp, ?_, ?_, ?_⟩
      · rw [← hres]
      · rw [← hres]
      · rw [← hres]
        rfl
    · rename_i hfind
      right
      injection h with h'
      exact ⟨hfind, h'.symm⟩
  · intro db userId vrs
    induction vrs with
    | nil =>
      intro results h r hr
      unfold searchHydrate at h
      injection h with h'
      rw [← h'] at hr
      cases hr
    | cons v rest ih =>
      intro results h r hr
      unfold searchHydrate at h
      split at h
      · cases h
      · rename_i r0 hstep
        split at h
        · cases h
        · rename_i rs hrest
          injection h with h'
          rw [← h'] at hr
          rcases List.mem_cons.mp hr with rfl | hmem
          · exact ⟨v, List.mem_cons_self v rest, hstep⟩
          · rcases ih rs hrest r hmem with ⟨v', hv', hstep'⟩
            exact ⟨v', List.mem_cons_of_mem v hv', hstep'⟩

/-- The one-memory database of the C10 witness. -/
def C10db : Db :=
  ⟨[⟨1, "mem-00000001", some "memory", some "hi", "u1", some "v1", none, "PENDING", 0⟩],
    [], 2, 1⟩

/-- A vector hit for `v1` reporting distance 7. -/
def C10hit : SearchHit :=
  ⟨"v1", [1], "hi", "u1", 0, "mem-00000001", "", 7⟩

/-- The result `search` builds for `C10hit`. -/
def C10res : MemorySearchResult :=
  ⟨MemoryRef.node ⟨1, "mem-00000001", some "memory", some "hi", "u1", some "v1", none,
      "PENDING", 0⟩,
    some 0,
    some ⟨[⟨1, "mem-00000001", "memory", some "hi", 0⟩], []⟩⟩

/-- Witness for `C10_search_similarity_constant`: the hydrated result
for a hit of distance 7 still carries similarity 0. -/
theorem C10_search_similarity_constant_witness :
    C10res.similarity = some 0 ∧ C10res.context.isSome = true := by
  rcases C10_search_similarity_constant.1 C10db "u1" C10hit C10res rfl with
    ⟨node, _, _, _, hsim, hctx⟩ | ⟨_, hres⟩
  · exact ⟨hsim, hctx⟩
  · exact absurd hres (by decide)

/-! ## C3: RNG fallback in production -/

/-- C3: the production guard exists only on the external-provider
path.  For the external providers, an API failure in production
surfaces the error and `embed` never returns an RNG vector; but on
the local-pipeline path the mock branch has no `NODE_ENV` guard at
all, and with the model unavailable `embed` returns a
`crypto.randomFillSync` vector of dimension 384 even when `NODE_ENV`
is `'production'` — the failing input of the code bug. -/
theorem C3_production_embed_rng_paths (env : EmbedEnv) (text : String) :
    (env.nodeEnv = "production" →
      (env.provider = "openai" ∨ env.provider = "lmstudio") →
      ∀ d : Nat, Embedder.embed env text ≠ EmbedResult.rngMock d) ∧
    (Embedder.embed ⟨"production", "local", true, true, false⟩ "hello" =
      EmbedResult.rngMock 384) := by
  constructor
  · intro hprod hprov d
    unfold Embedder.embed
    by_cases htext : jsTrim text = ""
    · rw [if_pos htext]
      simp
    · rw [if_neg htext]
      by_cases hcache : env.cacheHit = true
      · rw [if_pos hcache]
        simp
      · rw [if_neg hcache, if_pos hprov]
        unfold embedExternal
        by_cases hext : env.externalOk = true
        · rw [if_pos hext]
          simp
        · rw [if_neg hext, if_pos hprod]
          simp
  · rfl

/-- Witness for `C3_production_embed_rng_paths`: a failing external
call under `NODE_ENV = 'production'` does not produce the 1536-wide
RNG vector. -/
theorem C3_production_embed_rng_paths_witness :
    Embedder.embed ⟨"production", "openai", false, false, false⟩ "hi" ≠
      EmbedResult.rngMock 1536 :=
  (C3_production_embed_rng_paths ⟨"production", "openai", false, false, false⟩ "hi").1
    rfl (Or.inl rfl) 1536

end CoDified
